import Mathlib

/-!
The Codeberg source client and the importer of gitlab-activity-importer

A shallow embedding of `internal/services/codeberg.go` and of the importer and
push stages of `cmd/main.go`.

Everything the Go code obtains from outside the repository's own logic is a
field of `World`: the two environment variables, the URL escaping functions,
`http.NewRequestWithContext`, `client.Do`, the two JSON decoders,
`time.Parse(time.RFC3339, ·)` and `time.Now`.  Go's `([]T, error)` results are
kept as pairs, with `none` for a nil slice and `none` for a nil error.
-/

namespace GitlabActivityImporter

/-! ## Data model -/

/-- The constant `codebergPageSize`. -/
def codebergPageSize : Nat := 50

/-- The anonymous struct `Owner` of `codebergRepo`. -/
structure codebergOwner where
  Login : String
  Username : String
  deriving DecidableEq, Repr

/-- The struct `codebergRepo`. -/
structure codebergRepo where
  Name : String
  Owner : codebergOwner
  deriving DecidableEq, Repr

/-- The anonymous author struct (`name`, `email`, `date`) used twice in `codebergCommit`. -/
structure codebergSignature where
  Name : String
  Email : String
  Date : String
  deriving DecidableEq, Repr

/-- The anonymous struct `Commit` of `codebergCommit`. -/
structure codebergCommitDetail where
  Author : codebergSignature
  deriving DecidableEq, Repr

/-- The struct `codebergCommit`. -/
structure codebergCommit where
  Sha : String
  ID : String
  Message : String
  Commit : codebergCommitDetail
  Author : codebergSignature
  deriving DecidableEq, Repr

/-- The struct `internal.Commit`, with the fields `convertCodebergCommit` fills; `τ` is the
type of instants (`time.Time`). -/
structure Commit (τ : Type) where
  ID : String
  Message : String
  AuthorName : String
  AuthorMail : String
  AuthoredDate : τ
  deriving DecidableEq, Repr

/-- The errors the Codeberg client returns, one constructor per `fmt.Errorf` site. -/
inductive FetchError where
  | usernameNotConfigured
  | baseURLNotConfigured
  | ownerRepoMissing
  | buildRequest (cause : String)
  | transport (cause : String)
  | status (code : Nat) (body : String)
  | decode (cause : String)
  | noCommits (owner repo : String)
  deriving DecidableEq, Repr

/-- An outgoing HTTP request as handed to `client.Do`: a GET of `url` with the
`Authorization` header set by `codebergAuthHeader`. -/
structure Request where
  url : String
  authorization : String
  deriving DecidableEq, Repr

/-- What `client.Do` hands back on success: the status code and the body. -/
structure Response where
  statusCode : Nat
  body : String
  deriving DecidableEq, Repr

deriving instance DecidableEq for Except

/-- The surroundings of the Codeberg client. -/
structure World (τ : Type) where
  /-- Value of `os.Getenv("CODEBERG_BASE_URL")`. -/
  baseURLEnv : String
  /-- Value of `os.Getenv("CODEBERG_TOKEN")`. -/
  tokenEnv : String
  /-- Function `url.PathEscape`. -/
  pathEscape : String → String
  /-- Function `url.QueryEscape`. -/
  queryEscape : String → String
  /-- Error of `http.NewRequestWithContext` for a GET of this URL, `none` when it builds. -/
  newRequestError : String → Option String
  /-- Result of `client.Do`. -/
  clientDo : Request → Except String Response
  /-- Result of `json.NewDecoder(body).Decode` into a `[]codebergRepo`. -/
  decodeRepos : String → Except String (List codebergRepo)
  /-- Result of `json.NewDecoder(body).Decode` into a `[]codebergCommit`. -/
  decodeCommits : String → Except String (List codebergCommit)
  /-- Result of `time.Parse(time.RFC3339, ·)`, `none` on error. -/
  parseRFC3339 : String → Option τ
  /-- Value of `time.Now()` at its k-th reading. -/
  now : Nat → τ

/-- A Go result `([]α, error)`: `val = none` is the nil slice, `err = none` the nil error. -/
structure GoResult (α : Type) where
  val : Option (List α)
  err : Option FetchError
  deriving DecidableEq, Repr

/-- Go `len` of a slice. -/
def goLen {α : Type} : Option (List α) → Nat
  | none => 0
  | some xs => xs.length

/-- Go `append(s, x)`. -/
def goAppend {α : Type} (s : Option (List α)) (x : α) : Option (List α) :=
  match s with
  | none => some [x]
  | some xs => some (xs ++ [x])

/-- Go `append(s, t...)`: when `t` is empty the slice `s` is returned as it is. -/
def goAppendAll {α : Type} (s : Option (List α)) (t : List α) : Option (List α) :=
  match t with
  | [] => s
  | _ :: _ =>
    match s with
    | none => some t
    | some xs => some (xs ++ t)

/-- The items of a Go slice, nil being empty. -/
def goItems {α : Type} : Option (List α) → List α
  | none => []
  | some xs => xs

/-! ## `codebergBaseURL`, `codebergAPIURL`, request construction -/

/-- Go `strings.TrimRight(s, "/")` on the list of characters. -/
def trimRightSlash (s : String) : String :=
  String.mk (s.toList.reverse.dropWhile (fun c => c = '/')).reverse

/-- Function `codebergBaseURL`. -/
def codebergBaseURL {τ : Type} (w : World τ) : String :=
  trimRightSlash w.baseURLEnv

/-- Function `codebergAPIURL`. -/
def codebergAPIURL {τ : Type} (w : World τ) (path : String) : String :=
  codebergBaseURL w ++ path

/-- The header value set by `codebergAuthHeader`. -/
def codebergAuthHeader {τ : Type} (w : World τ) : String :=
  "token " ++ w.tokenEnv

/-- The endpoint of `GetCodebergRepos` for a page. -/
def reposEndpoint {τ : Type} (w : World τ) (username : String) (page : Nat) : String :=
  codebergAPIURL w
    ("/api/v1/users/" ++ username ++ "/repos?page=" ++ toString page ++ "&limit="
      ++ toString codebergPageSize)

/-- The endpoint of `GetCodebergRepoCommits` for a page. -/
def commitsEndpoint {τ : Type} (w : World τ) (owner repo gitAuthor : String) (page : Nat) :
    String :=
  codebergAPIURL w
    ("/api/v1/repos/" ++ w.pathEscape owner ++ "/" ++ w.pathEscape repo ++ "/commits?author="
      ++ w.queryEscape gitAuthor ++ "&page=" ++ toString page ++ "&limit="
      ++ toString codebergPageSize)

/-! ## `convertCodebergCommit` -/

/-- Function `convertCodebergCommit`.  The second argument is the number of `time.Now()`
readings made so far; the updated count is returned with the record. -/
def convertCodebergCommit {τ : Type} (w : World τ) (commit : codebergCommit) (tick : Nat) :
    Commit τ × Nat :=
  let hash := commit.Sha
  let hash := if hash = "" then commit.ID else hash
  let authorName := commit.Commit.Author.Name
  let authorName := if authorName = "" then commit.Author.Name else authorName
  let authorEmail := commit.Commit.Author.Email
  let authorEmail := if authorEmail = "" then commit.Author.Email else authorEmail
  let dateStr := commit.Commit.Author.Date
  let dateStr := if dateStr = "" then commit.Author.Date else dateStr
  match w.parseRFC3339 dateStr with
  | some date =>
    ({ ID := hash, Message := commit.Message, AuthorName := authorName,
       AuthorMail := authorEmail, AuthoredDate := date }, tick)
  | none =>
    ({ ID := hash, Message := commit.Message, AuthorName := authorName,
       AuthorMail := authorEmail, AuthoredDate := w.now tick }, tick + 1)

/-- The loop `for _, commit := range pageCommits { allCommits = append(allCommits,
convertCodebergCommit(commit)) }`. -/
def appendConverted {τ : Type} (w : World τ) :
    List codebergCommit → Option (List (Commit τ)) → Nat → Option (List (Commit τ)) × Nat
  | [], all, tick => (all, tick)
  | c :: rest, all, tick =>
    let r := convertCodebergCommit w c tick
    appendConverted w rest (goAppend all r.1) r.2

/-! ## One page: `client.Do`, the status check and the decoder -/

/-- The part of a loop iteration from `client.Do` to the decoder (codeberg.go 79-99 and
141-161): the decoded items of the page, or the error the iteration returns. -/
def fetchPage {τ α : Type} (w : World τ) (decode : String → Except String (List α))
    (req : Request) : Except FetchError (List α) :=
  match w.clientDo req with
  | .error e => .error (.transport e)
  | .ok res =>
    if res.statusCode ≠ 200 then .error (.status res.statusCode res.body)
    else
      match decode res.body with
      | .error e => .error (.decode e)
      | .ok items => .ok items

/-- A finished call of a listing function: the requests handed to `client.Do`, in order, and
the Go result. -/
structure Run (α : Type) where
  requests : List Request
  result : GoResult α
  deriving DecidableEq, Repr

/-! ## `GetCodebergRepos` -/

/-- The loop `for page := 1; ; page++` of `GetCodebergRepos`, with one unit of fuel per
iteration; `none` when the fuel runs out. -/
def reposLoop {τ : Type} (w : World τ) (username : String) :
    Nat → Nat → List Request → Option (List codebergRepo) → Option (Run codebergRepo)
  | 0, _, _, _ => none
  | fuel + 1, page, requests, allRepos =>
    let endpoint := reposEndpoint w username page
    match w.newRequestError endpoint with
    | some e =>
      some { requests := requests, result := { val := none, err := some (.buildRequest e) } }
    | none =>
      let req : Request := { url := endpoint, authorization := codebergAuthHeader w }
      let requests := requests ++ [req]
      match fetchPage w w.decodeRepos req with
      | .error pageErr =>
        some { requests := requests, result := { val := none, err := some pageErr } }
      | .ok pageRepos =>
        let allRepos := if pageRepos.length = 0 then allRepos else goAppendAll allRepos pageRepos
        if pageRepos.length = 0 then
          some { requests := requests, result := { val := allRepos, err := none } }
        else if pageRepos.length < codebergPageSize then
          some { requests := requests, result := { val := allRepos, err := none } }
        else reposLoop w username fuel (page + 1) requests allRepos

/-- Function `GetCodebergRepos`. -/
def GetCodebergRepos {τ : Type} (w : World τ) (fuel : Nat) (username : String) :
    Option (Run codebergRepo) :=
  if username = "" then
    some { requests := [], result := { val := none, err := some .usernameNotConfigured } }
  else if codebergBaseURL w = "" then
    some { requests := [], result := { val := none, err := some .baseURLNotConfigured } }
  else reposLoop w username fuel 1 [] none

/-! ## `GetCodebergRepoCommits` -/

/-- The code after the loop of `GetCodebergRepoCommits` (codeberg.go 183-187). -/
def commitsResult {τ : Type} (owner repo : String) (allCommits : Option (List (Commit τ))) :
    GoResult (Commit τ) :=
  if goLen allCommits = 0 then { val := none, err := some (.noCommits owner repo) }
  else { val := allCommits, err := none }

/-- The loop `for page := 1; ; page++` of `GetCodebergRepoCommits` with the code that follows
it, one unit of fuel per iteration; `none` when the fuel runs out.  The `Nat` threaded through
is the number of `time.Now()` readings. -/
def commitsLoop {τ : Type} (w : World τ) (owner repo gitAuthor : String) :
    Nat → Nat → List Request → Option (List (Commit τ)) → Nat → Option (Run (Commit τ) × Nat)
  | 0, _, _, _, _ => none
  | fuel + 1, page, requests, allCommits, tick =>
    let endpoint := commitsEndpoint w owner repo gitAuthor page
    match w.newRequestError endpoint with
    | some e =>
      some ({ requests := requests,
              result := { val := none, err := some (.buildRequest e) } }, tick)
    | none =>
      let req : Request := { url := endpoint, authorization := codebergAuthHeader w }
      let requests := requests ++ [req]
      match fetchPage w w.decodeCommits req with
      | .error pageErr =>
        some ({ requests := requests, result := { val := none, err := some pageErr } }, tick)
      | .ok pageCommits =>
        let st := if pageCommits.length = 0 then (allCommits, tick)
                  else appendConverted w pageCommits allCommits tick
        if pageCommits.length = 0 then
          some ({ requests := requests, result := commitsResult owner repo st.1 }, st.2)
        else if pageCommits.length < codebergPageSize then
          some ({ requests := requests, result := commitsResult owner repo st.1 }, st.2)
        else commitsLoop w owner repo gitAuthor fuel (page + 1) requests st.1 st.2

/-- Function `GetCodebergRepoCommits`; `tick` is the number of `time.Now()` readings made
before the call. -/
def GetCodebergRepoCommits {τ : Type} (w : World τ) (fuel : Nat)
    (owner repo gitAuthor : String) (tick : Nat) : Option (Run (Commit τ) × Nat) :=
  if owner = "" ∨ repo = "" then
    some ({ requests := [], result := { val := none, err := some .ownerRepoMissing } }, tick)
  else if codebergBaseURL w = "" then
    some ({ requests := [], result := { val := none, err := some .baseURLNotConfigured } }, tick)
  else commitsLoop w owner repo gitAuthor fuel 1 [] none tick

/-! ## `FetchCodebergCommits` -/

/-- The `(owner, repo.Name)` pairs for which the loop of `FetchCodebergCommits` starts a
goroutine, in loop order. -/
def spawnedTasks (repos : List codebergRepo) : List (String × String) :=
  repos.filterMap fun repo =>
    let owner := repo.Owner.Login
    let owner := if owner = "" then repo.Owner.Username else owner
    if owner = "" ∨ repo.Name = "" then none else some (owner, repo.Name)

/-- One goroutine of `FetchCodebergCommits`: the arguments of its call of
`GetCodebergRepoCommits`, the finished call (`none` when it never returns) and the batch it
sends on `commitChannel`, if any. -/
structure TaskRun (τ : Type) where
  owner : String
  repoName : String
  gitAuthor : String
  listing : Option (Run (Commit τ))
  sent : Option (List (Commit τ))

/-- The body of the goroutine started for `(owner, repoName)`; `clock` gives the values
`time.Now()` takes at the successive readings made by this goroutine. -/
def commitTask {τ : Type} (w : World τ) (fuel : Nat) (username : String) (clock : Nat → τ)
    (owner repoName : String) : TaskRun τ :=
  match GetCodebergRepoCommits { w with now := clock } fuel owner repoName username 0 with
  | none =>
    { owner := owner, repoName := repoName, gitAuthor := username, listing := none, sent := none }
  | some (run, _) =>
    match run.result.err with
    | some _ =>
      { owner := owner, repoName := repoName, gitAuthor := username, listing := some run,
        sent := none }
    | none =>
      { owner := owner, repoName := repoName, gitAuthor := username, listing := some run,
        sent := if goLen run.result.val > 0 then some (goItems run.result.val) else none }

/-- A run of `FetchCodebergCommits`: the call of `GetCodebergRepos` (`none` when it never
returns), the goroutines in the order they are started, the batches sent on `commitChannel`
(a multiset: the order of arrival is the scheduler's), whether `wg.Wait()` returns, and the
final value of `validCommitsFound`. -/
structure FetchRun (τ : Type) where
  discovery : Option (Run codebergRepo)
  tasks : List (TaskRun τ)
  sent : Multiset (List (Commit τ))
  returns : Bool
  validCommitsFound : Bool

/-- Function `FetchCodebergCommits`; `clocks i` is the clock seen by the i-th goroutine. -/
def FetchCodebergCommits {τ : Type} (w : World τ) (fuel : Nat) (username : String)
    (clocks : Nat → Nat → τ) : FetchRun τ :=
  match GetCodebergRepos w fuel username with
  | none =>
    { discovery := none, tasks := [], sent := 0, returns := false, validCommitsFound := false }
  | some run =>
    match run.result.err with
    | some _ =>
      { discovery := some run, tasks := [], sent := 0, returns := true,
        validCommitsFound := false }
    | none =>
      let tasks := (spawnedTasks (goItems run.result.val)).enum.map
        fun it => commitTask w fuel username (clocks it.1) it.2.1 it.2.2
      { discovery := some run,
        tasks := tasks,
        sent := Multiset.ofList (tasks.filterMap fun t => t.sent),
        returns := tasks.all fun t => t.listing.isSome,
        validCommitsFound := tasks.any fun t => t.sent.isSome }

/-! ## `main`: the importer and the push stage -/

/-- What `main` and its importer goroutine call or start, in program order.  `β` is the type
of a batch (`[]internal.Commit`). -/
inductive MainCall (β : Type) where
  | SetupEnv
  | GetGitlabUser
  | GetUsersProjectsIds (userID : Int)
  | OpenOrInitClone
  | PullLatestChanges
  | goFetchGitLabCommits (projectIds : List Int)
  | IsCodebergSyncEnabled
  | goFetchCodebergCommits
  | CreateLocalCommit (commits : β)
  | PushLocalCommits
  deriving DecidableEq, Repr

/-- How a run of `main` ends: it returns, `log.Fatalf` exits the process, or it waits for
ever on `commitWG`. -/
inductive MainExit where
  | returned
  | fatal
  | blocked
  deriving DecidableEq, Repr

/-- The collaborators of `main`, none of them under `src/`: each field is the outcome of the
function of that name.  `ρ` is the state of the local repository.  `received` is the sequence
of batches the importer receives from `commitChannel`, in arrival order, and `channelCloses`
tells whether the fetch tasks all return, so that the channel is closed. -/
structure MainEnv (β ρ : Type) where
  SetupEnv : Option String
  GetGitlabUser : Except String Int
  GetUsersProjectsIds : Int → Except String (List Int)
  OpenOrInitClone : ρ
  PullLatestChanges : ρ → ρ × Option String
  IsCodebergSyncEnabled : Bool
  received : List β
  channelCloses : Bool
  CreateLocalCommit : ρ → β → ρ × Int × Option String
  PushLocalCommits : ρ → Option String

/-- One call of `CreateLocalCommit` by the importer, with what it returned. -/
structure ImportCall (β : Type) where
  commits : β
  localCommits : Int
  err : Option String
  deriving DecidableEq, Repr

/-- State of the importer goroutine: the repository, `totalCommits` (a Go `int`) and the calls
made. -/
structure ImporterState (β ρ : Type) where
  repo : ρ
  totalCommits : Int
  calls : List (ImportCall β)

/-- The value a Go `int` (64 bits, two's complement) holds for the mathematical integer `x`:
the representative of `x` modulo 2^64 between -2^63 and 2^63 - 1. -/
def wrapInt64 (x : Int) : Int :=
  (x + 9223372036854775808) % 18446744073709551616 - 9223372036854775808

/-- The loop `for commits := range commitChannel` of the importer goroutine (main.go 77-83),
run on the batches received; `totalCommits += localCommits` is an addition of Go `int`s. -/
def runImporter {β ρ : Type} (create : ρ → β → ρ × Int × Option String) :
    List β → ImporterState β ρ → ImporterState β ρ
  | [], st => st
  | commits :: rest, st =>
    let r := create st.repo commits
    let call : ImportCall β := { commits := commits, localCommits := r.2.1, err := r.2.2 }
    match r.2.2 with
    | none =>
      runImporter create rest
        { repo := r.1, totalCommits := wrapInt64 (st.totalCommits + r.2.1),
          calls := st.calls ++ [call] }
    | some _ =>
      runImporter create rest
        { repo := r.1, totalCommits := st.totalCommits, calls := st.calls ++ [call] }

/-- A run of `main`: the calls made, the value of the Go `int` `totalCommitsCreated` read
after `commitWG.Wait()` (`none` when that point is not reached) and how the run ends. -/
structure MainRun (β : Type) where
  calls : List (MainCall β)
  totalCommitsCreated : Option Int
  exit : MainExit
  deriving DecidableEq, Repr

/-- Function `main`. -/
def main {β ρ : Type} (env : MainEnv β ρ) : MainRun β :=
  match env.SetupEnv with
  | some _ => { calls := [.SetupEnv], totalCommitsCreated := none, exit := .fatal }
  | none =>
    match env.GetGitlabUser with
    | .error _ =>
      { calls := [.SetupEnv, .GetGitlabUser], totalCommitsCreated := none, exit := .fatal }
    | .ok gitLabUserID =>
      let c₁ : List (MainCall β) :=
        [.SetupEnv, .GetGitlabUser, .GetUsersProjectsIds gitLabUserID]
      match env.GetUsersProjectsIds gitLabUserID with
      | .error _ => { calls := c₁, totalCommitsCreated := none, exit := .fatal }
      | .ok projectIds =>
        if projectIds.length = 0 then
          { calls := c₁, totalCommitsCreated := none, exit := .returned }
        else
          let repo := env.OpenOrInitClone
          let pulled := env.PullLatestChanges repo
          let c₂ := c₁ ++ [.OpenOrInitClone, .PullLatestChanges]
          match pulled.2 with
          | some _ => { calls := c₂, totalCommitsCreated := none, exit := .fatal }
          | none =>
            let c₃ := c₂ ++ [.goFetchGitLabCommits projectIds, .IsCodebergSyncEnabled]
              ++ (if env.IsCodebergSyncEnabled then [.goFetchCodebergCommits] else [])
            let imp := runImporter env.CreateLocalCommit env.received
              { repo := pulled.1, totalCommits := 0, calls := [] }
            let c₄ := c₃ ++ imp.calls.map fun c => .CreateLocalCommit c.commits
            if env.channelCloses then
              let totalCommitsCreated := imp.totalCommits
              if totalCommitsCreated > 0 then
                match env.PushLocalCommits imp.repo with
                | some _ =>
                  { calls := c₄ ++ [.PushLocalCommits],
                    totalCommitsCreated := some totalCommitsCreated, exit := .fatal }
                | none =>
                  { calls := c₄ ++ [.PushLocalCommits],
                    totalCommitsCreated := some totalCommitsCreated, exit := .returned }
              else
                { calls := c₄, totalCommitsCreated := some totalCommitsCreated,
                  exit := .returned }
            else { calls := c₄, totalCommitsCreated := none, exit := .blocked }

/-! ## Vocabulary of the statements -/

/-- The request `GetCodebergRepoCommits` hands to `client.Do` for a page. -/
def commitsRequest {τ : Type} (w : World τ) (owner repo gitAuthor : String) (page : Nat) :
    Request :=
  { url := commitsEndpoint w owner repo gitAuthor page, authorization := codebergAuthHeader w }

/-- What `GetCodebergRepoCommits` gets for a page: the decoded items, or the failure of the
iteration (the request cannot be built, transport error, status other than 200, decode error). -/
def commitsPage {τ : Type} (w : World τ) (owner repo gitAuthor : String) (page : Nat) :
    Except FetchError (List codebergCommit) :=
  match w.newRequestError (commitsEndpoint w owner repo gitAuthor page) with
  | some e => .error (.buildRequest e)
  | none => fetchPage w w.decodeCommits (commitsRequest w owner repo gitAuthor page)

/-- The request `GetCodebergRepos` hands to `client.Do` for a page. -/
def reposRequest {τ : Type} (w : World τ) (username : String) (page : Nat) : Request :=
  { url := reposEndpoint w username page, authorization := codebergAuthHeader w }

/-- What `GetCodebergRepos` gets for a page: the decoded items, or the failure of the
iteration (the request cannot be built, transport error, status other than 200, decode error). -/
def reposPage {τ : Type} (w : World τ) (username : String) (page : Nat) :
    Except FetchError (List codebergRepo) :=
  match w.newRequestError (reposEndpoint w username page) with
  | some e => .error (.buildRequest e)
  | none => fetchPage w w.decodeRepos (reposRequest w username page)

/-- The number of requests handed to `client.Do` when the loop ends at page `n`: all of pages
`1..n`, or `1..n-1` when the request of page `n` cannot be built. -/
def requestsSent (lastBuilt : Bool) (n : Nat) : Nat :=
  if lastBuilt then n else n - 1

/-- The response of the server to a request, in the words of the specification: a transport
error, a status other than 200, a body that does not decode, or a decoded array of items. -/
inductive ServerResponse (α : Type) where
  | transportError (cause : String)
  | badStatus (code : Nat) (body : String)
  | decodeError (cause : String)
  | items (array : List α)
  deriving DecidableEq, Repr

/-- The response of the server of the world to a request, read off `client.Do` and the
decoder alone. -/
def serverResponse {τ α : Type} (w : World τ) (decode : String → Except String (List α))
    (req : Request) : ServerResponse α :=
  match w.clientDo req with
  | .error cause => .transportError cause
  | .ok res =>
    if res.statusCode = 200 then
      match decode res.body with
      | .error cause => .decodeError cause
      | .ok array => .items array
    else .badStatus res.statusCode res.body

/-- The response is a failure: transport error, status other than 200 or decode error. -/
def ServerResponse.fails {α : Type} : ServerResponse α → Bool
  | .items _ => false
  | _ => true

/-- The items a response holds, none for a failure. -/
def ServerResponse.held {α : Type} : ServerResponse α → List α
  | .items array => array
  | _ => []

/-- The response is a failure or a decoded array of fewer than `codebergPageSize` items. -/
def ServerResponse.ends {α : Type} : ServerResponse α → Bool
  | .items array => decide (array.length < codebergPageSize)
  | _ => true

/-- The Go value a loop iteration draws from a response: the decoded items, or the error the
call returns. -/
def ServerResponse.toExcept {α : Type} : ServerResponse α → Except FetchError (List α)
  | .transportError cause => .error (.transport cause)
  | .badStatus code body => .error (.status code body)
  | .decodeError cause => .error (.decode cause)
  | .items array => .ok array

/-- The server seen by `GetCodebergRepoCommits` as a function from page number to response. -/
def commitsResponse {τ : Type} (w : World τ) (owner repo gitAuthor : String) (page : Nat) :
    ServerResponse codebergCommit :=
  serverResponse w w.decodeCommits (commitsRequest w owner repo gitAuthor page)

/-- The server seen by `GetCodebergRepos` as a function from page number to response. -/
def reposResponse {τ : Type} (w : World τ) (username : String) (page : Nat) :
    ServerResponse codebergRepo :=
  serverResponse w w.decodeRepos (reposRequest w username page)

/-- Page `n` is the least page, counted from 1, whose response is a failure or a decoded
array of fewer than `codebergPageSize` items. -/
def stopsAt {α : Type} (resp : Nat → ServerResponse α) (n : Nat) : Prop :=
  1 ≤ n ∧ (resp n).ends = true ∧ ∀ p, 1 ≤ p → p < n → (resp p).ends = false

instance stopsAt.decidable {α : Type} (resp : Nat → ServerResponse α) (n : Nat) :
    Decidable (stopsAt resp n) :=
  decidable_of_iff
    (1 ≤ n ∧ (resp n).ends = true ∧ ∀ p, p < n → 1 ≤ p → (resp p).ends = false)
    ⟨fun h => ⟨h.1, h.2.1, fun p h1 h2 => h.2.2 p h2 h1⟩,
     fun h => ⟨h.1, h.2.1, fun p h1 h2 => h.2.2 p h2 h1⟩⟩

/-- The owner of a discovered repo: its owner login, or its owner username when the login is
empty. -/
def repoOwner (r : codebergRepo) : String :=
  if r.Owner.Login = "" then r.Owner.Username else r.Owner.Login

/-- The batch a finished commit listing delivers: its commits when it succeeded. -/
def listingBatch {τ : Type} : Option (Run (Commit τ)) → Option (List (Commit τ))
  | some run => if run.result.err = none then some (goItems run.result.val) else none
  | none => none

/-- The call is `PushLocalCommits`. -/
def isPush {β : Type} : MainCall β → Bool
  | .PushLocalCommits => true
  | _ => false

/-- The batch of a `CreateLocalCommit` call, nothing for any other call. -/
def createdBatch {β : Type} : MainCall β → Option β
  | .CreateLocalCommit commits => some commits
  | _ => none

/-- The state in which the importer goroutine of `main` starts. -/
def freshImporter {β ρ : Type} (repo : ρ) : ImporterState β ρ :=
  { repo := repo, totalCommits := 0, calls := [] }

/-- The outcomes of calling `create` on the batches one after the other, each call on the
repository as the earlier calls left it. -/
def createOutcomes {β ρ : Type} (create : ρ → β → ρ × Int × Option String) :
    List β → ρ → List (ImportCall β)
  | [], _ => []
  | commits :: rest, repo =>
    let r := create repo commits
    { commits := commits, localCommits := r.2.1, err := r.2.2 }
      :: createOutcomes create rest r.1

/-- A response ends the pagination: a failure, or fewer than `codebergPageSize` items. -/
def pageStops {ε α : Type} : Except ε (List α) → Bool
  | .error _ => true
  | .ok items => decide (items.length < codebergPageSize)

/-- The items of a response, none for a failure. -/
def pageItems {ε α : Type} : Except ε (List α) → List α
  | .error _ => []
  | .ok items => items

/-- A response is a failure. -/
def pageFails {ε α : Type} : Except ε (List α) → Bool
  | .error _ => true
  | .ok _ => false

/-- The failures of a response: transport error, status other than 200, decode error. -/
def responseFailure : FetchError → Bool
  | .transport _ => true
  | .status _ _ => true
  | .decode _ => true
  | _ => false

/-- The response of a page is a failure or a decoded array of fewer than `codebergPageSize`
items. -/
def pageEnds {α : Type} : Except FetchError (List α) → Bool
  | .error e => responseFailure e
  | .ok items => decide (items.length < codebergPageSize)

/-- The response of a page is a decoded array of at least `codebergPageSize` items. -/
def pageFull {ε α : Type} : Except ε (List α) → Bool
  | .error _ => false
  | .ok items => decide (codebergPageSize ≤ items.length)

/-- Page `n` is the least page, counted from 1, whose response is a failure or a decoded array
of fewer than `codebergPageSize` items: the pages before it are full arrays. -/
def leastStop {α : Type} (resp : Nat → Except FetchError (List α)) (n : Nat) : Prop :=
  1 ≤ n ∧ pageEnds (resp n) = true ∧ ∀ p, 1 ≤ p → p < n → pageFull (resp p) = true

instance leastStop.decidable {α : Type} (resp : Nat → Except FetchError (List α)) (n : Nat) :
    Decidable (leastStop resp n) :=
  decidable_of_iff
    (1 ≤ n ∧ pageEnds (resp n) = true ∧ ∀ p, p < n → 1 ≤ p → pageFull (resp p) = true)
    ⟨fun h => ⟨h.1, h.2.1, fun p h1 h2 => h.2.2 p h2 h1⟩,
     fun h => ⟨h.1, h.2.1, fun p h1 h2 => h.2.2 p h2 h1⟩⟩

/-- The records obtained by applying `convertCodebergCommit` to every item of a list, in
order; the `Nat` is the number of `time.Now()` readings. -/
def convertAll {τ : Type} (w : World τ) : List codebergCommit → Nat → List (Commit τ) × Nat
  | [], tick => ([], tick)
  | c :: rest, tick =>
    let r := convertCodebergCommit w c tick
    let rs := convertAll w rest r.2
    (r.1 :: rs.1, rs.2)

/-- The Go result of `GetCodebergRepoCommits` when the last page requested has response `last`
and the records mapped from all the pages requested are `records`. -/
def commitsOutcome {τ : Type} (owner repo : String)
    (last : Except FetchError (List codebergCommit)) (records : List (Commit τ)) :
    GoResult (Commit τ) :=
  match last with
  | .error e => { val := none, err := some e }
  | .ok _ =>
    match records with
    | [] => { val := none, err := some (.noCommits owner repo) }
    | _ :: _ => { val := some records, err := none }

/-- The Go result of `GetCodebergRepos` when the last page requested has response `last` and
the repos of all the pages requested are `repos`. -/
def reposOutcome (last : Except FetchError (List codebergRepo)) (repos : List codebergRepo) :
    GoResult codebergRepo :=
  match last with
  | .error e => { val := none, err := some e }
  | .ok _ =>
    match repos with
    | [] => { val := none, err := none }
    | _ :: _ => { val := some repos, err := none }

/-! ## Worlds used in the examples -/

/-- A UTC instant by its calendar fields. -/
structure Instant where
  year : Nat
  month : Nat
  day : Nat
  hour : Nat
  minute : Nat
  second : Nat
  deriving DecidableEq, Repr

/-- The value of a decimal digit. -/
def digitValue (c : Char) : Option Nat :=
  if c.isDigit then some (c.toNat - 48) else none

/-- The number written by a list of decimal digits. -/
def digitsValue : List Char → Option Nat
  | [] => some 0
  | c :: rest =>
    match digitValue c, digitsValue rest with
    | some d, some r => some (d * 10 ^ rest.length + r)
    | _, _ => none

/-- A reader of RFC 3339 timestamps for the examples.  It accepts the UTC form
`YYYY-MM-DDTHH:MM:SSZ` with the fields in range and rejects every other string; what
`time.Parse` does on the other forms plays no role in the examples. -/
def parseUTC (s : String) : Option Instant :=
  let cs := s.toList
  if cs.length = 20 ∧ cs.get? 4 = some '-' ∧ cs.get? 7 = some '-' ∧ cs.get? 10 = some 'T'
      ∧ cs.get? 13 = some ':' ∧ cs.get? 16 = some ':' ∧ cs.get? 19 = some 'Z' then
    match digitsValue (cs.take 4), digitsValue ((cs.drop 5).take 2),
      digitsValue ((cs.drop 8).take 2), digitsValue ((cs.drop 11).take 2),
      digitsValue ((cs.drop 14).take 2), digitsValue ((cs.drop 17).take 2) with
    | some y, some mo, some d, some h, some mi, some sec =>
      if 1 ≤ mo ∧ mo ≤ 12 ∧ 1 ≤ d ∧ d ≤ 31 ∧ h < 24 ∧ mi < 60 ∧ sec < 60 then
        some { year := y, month := mo, day := d, hour := h, minute := mi, second := sec }
      else none
    | _, _, _, _, _, _ => none
  else none

/-- The body the test server of `TestGetCodebergRepos` writes for page 1. -/
def testReposBody : String :=
  "[\x7b\"name\":\"repo\",\"owner\":\x7b\"login\":\"testuser\"\x7d\x7d]"

/-- The body the test server of `TestGetCodebergRepoCommits` writes. -/
def testCommitsBody : String :=
  "[\x7b\"sha\":\"abc123\",\"message\":\"test\",\"commit\":\x7b\"author\":\x7b\"name\":\"Author\",\"email\":\"author@example.com\",\"date\":\"2024-01-01T12:00:00Z\"\x7d\x7d\x7d]"

/-- The repo decoded from `testReposBody`. -/
def testRepo : codebergRepo :=
  { Name := "repo", Owner := { Login := "testuser", Username := "" } }

/-- The commit decoded from `testCommitsBody`. -/
def testCommit : codebergCommit :=
  { Sha := "abc123", ID := "", Message := "test",
    Commit := { Author := { Name := "Author", Email := "author@example.com",
                            Date := "2024-01-01T12:00:00Z" } },
    Author := { Name := "", Email := "", Date := "" } }

/-- The path part of a URL: what precedes the first question mark. -/
def urlPath (url : String) : String :=
  String.mk (url.toList.takeWhile fun c => c ≠ '?')

/-- The query part of a URL: what follows the first question mark. -/
def urlQuery (url : String) : String :=
  String.mk ((url.toList.dropWhile fun c => c ≠ '?').drop 1)

/-- The two test servers of `codeberg_test.go` behind one address: the repos handler answers
page 1 with one repo and any other page with an empty array; the commits handler answers every
page with one commit. -/
def testServer (req : Request) : Except String Response :=
  if urlPath req.url = "http://127.0.0.1:8080/api/v1/users/testuser/repos" then
    if urlQuery req.url = "page=1&limit=50" then .ok { statusCode := 200, body := testReposBody }
    else .ok { statusCode := 200, body := "[]" }
  else if urlPath req.url = "http://127.0.0.1:8080/api/v1/repos/testuser/example/commits" then
    .ok { statusCode := 200, body := testCommitsBody }
  else .ok { statusCode := 404, body := "" }

/-- The world of the tests in `codeberg_test.go`. -/
def testWorld : World Instant where
  baseURLEnv := "http://127.0.0.1:8080"
  tokenEnv := "codeberg-token"
  pathEscape := id
  queryEscape := id
  newRequestError := fun _ => none
  clientDo := testServer
  decodeRepos := fun body =>
    if body = testReposBody then .ok [testRepo]
    else if body = "[]" then .ok []
    else .error "invalid character"
  decodeCommits := fun body =>
    if body = testCommitsBody then .ok [testCommit]
    else if body = "[]" then .ok []
    else .error "invalid character"
  parseRFC3339 := parseUTC
  now := fun k => { year := 2026, month := 11, day := 1, hour := 0, minute := 0, second := k }

/-- A world whose commits endpoint holds `codebergPageSize` commits on page 1 and none on any
later page: the server echoes the URL of the request and the decoder reads the page off it. -/
def fiftyThenNoneWorld : World Instant where
  baseURLEnv := "http://127.0.0.1:8080/"
  tokenEnv := "codeberg-token"
  pathEscape := id
  queryEscape := id
  newRequestError := fun _ => none
  clientDo := fun req => .ok { statusCode := 200, body := urlQuery req.url }
  decodeRepos := fun _ => .ok []
  decodeCommits := fun body =>
    if body = "author=testuser&page=1&limit=50" then .ok (List.replicate 50 testCommit)
    else .ok []
  parseRFC3339 := parseUTC
  now := fun k => { year := 2026, month := 11, day := 1, hour := 0, minute := 0, second := k }

/-- A commit payload with only `id` and the top-level author fields, and no date. -/
def bareCommit : codebergCommit :=
  { Sha := "", ID := "def456", Message := "fix",
    Commit := { Author := { Name := "", Email := "", Date := "" } },
    Author := { Name := "Top", Email := "top@example.com", Date := "" } }

/-- The server of `fourReposWorld`: four repos on page 1 of the repos endpoint; one commit in
`testuser/example`, one in `org/other`, status 500 for `testuser/broken`. -/
def fourReposServer (req : Request) : Except String Response :=
  if urlPath req.url = "http://127.0.0.1:8080/api/v1/users/testuser/repos" then
    if urlQuery req.url = "page=1&limit=50" then .ok { statusCode := 200, body := "repos" }
    else .ok { statusCode := 200, body := "[]" }
  else if urlPath req.url = "http://127.0.0.1:8080/api/v1/repos/testuser/example/commits" then
    .ok { statusCode := 200, body := testCommitsBody }
  else if urlPath req.url = "http://127.0.0.1:8080/api/v1/repos/org/other/commits" then
    .ok { statusCode := 200, body := "other" }
  else if urlPath req.url = "http://127.0.0.1:8080/api/v1/repos/testuser/broken/commits" then
    .ok { statusCode := 500, body := "internal error" }
  else .ok { statusCode := 404, body := "" }

/-- The repos of `fourReposWorld`: the second has no owner login, the third no name, the
fourth no owner login. -/
def fourRepos : List codebergRepo :=
  [{ Name := "example", Owner := { Login := "testuser", Username := "" } },
   { Name := "broken", Owner := { Login := "", Username := "testuser" } },
   { Name := "", Owner := { Login := "testuser", Username := "" } },
   { Name := "other", Owner := { Login := "", Username := "org" } }]

/-- A world with four discovered repos, of which one has no name and one fails to list. -/
def fourReposWorld : World Instant where
  baseURLEnv := "http://127.0.0.1:8080"
  tokenEnv := "codeberg-token"
  pathEscape := id
  queryEscape := id
  newRequestError := fun _ => none
  clientDo := fourReposServer
  decodeRepos := fun body =>
    if body = "repos" then .ok fourRepos
    else if body = "[]" then .ok []
    else .error "invalid character"
  decodeCommits := fun body =>
    if body = testCommitsBody then .ok [testCommit]
    else if body = "other" then .ok [bareCommit]
    else if body = "[]" then .ok []
    else .error "invalid character"
  parseRFC3339 := parseUTC
  now := fun k => { year := 2026, month := 11, day := 1, hour := 0, minute := 0, second := k }

/-- The clocks of the goroutines in the examples: goroutine `i` reads minute `i`. -/
def exampleClocks (i k : Nat) : Instant :=
  { year := 2026, month := 11, day := 1, hour := 0, minute := i, second := k }

/-- The check `url.Parse` makes on the percent signs of a path: a percent sign that is not
followed by two hexadecimal digits is an invalid URL escape. -/
def badEscape : List Char → Bool
  | [] => false
  | c :: rest =>
    if c = '%' then
      match rest with
      | a :: b :: rest2 =>
        if (a.isDigit ∨ ('a' ≤ a ∧ a ≤ 'f') ∨ ('A' ≤ a ∧ a ≤ 'F')) ∧
            (b.isDigit ∨ ('a' ≤ b ∧ b ≤ 'f') ∨ ('A' ≤ b ∧ b ≤ 'F')) then badEscape rest2
        else true
      | _ => true
    else badEscape rest

/-- The part of `http.NewRequestWithContext` the examples need: the URL is parsed and a path
with an invalid escape is rejected.  The other checks of `url.Parse` are left out. -/
def escapeCheck (url : String) : Option String :=
  if badEscape (urlPath url).toList then some "invalid URL escape" else none

/-- A world whose base URL ends in the invalid escape `%zz`: no request can be built.  Its
server would answer every request with an empty array. -/
def badBaseWorld : World Instant where
  baseURLEnv := "http://127.0.0.1:8080/%zz"
  tokenEnv := "codeberg-token"
  pathEscape := id
  queryEscape := id
  newRequestError := escapeCheck
  clientDo := fun _ => .ok { statusCode := 200, body := "[]" }
  decodeRepos := fun body => if body = "[]" then .ok [] else .error "invalid character"
  decodeCommits := fun body => if body = "[]" then .ok [] else .error "invalid character"
  parseRFC3339 := parseUTC
  now := fun k => { year := 2026, month := 11, day := 1, hour := 0, minute := 0, second := k }

/-- A world with a well-formed base URL whose `http.NewRequestWithContext` rejects invalid
escapes; `GetCodebergRepos` writes the username into the URL unescaped.  Its server answers
every request with an empty array. -/
def escapeWorld : World Instant :=
  { badBaseWorld with baseURLEnv := "http://127.0.0.1:8080" }

/-- A run environment of `main` for the examples: batches are lists of numbers, the repository
state is the list of numbers committed so far; a batch holding 0 fails to import, and reports
a count all the same. -/
def exampleEnv (received : List (List Nat)) : MainEnv (List Nat) (List Nat) where
  SetupEnv := none
  GetGitlabUser := .ok 42
  GetUsersProjectsIds := fun _ => .ok [7, 8]
  OpenOrInitClone := []
  PullLatestChanges := fun repo => (repo, none)
  IsCodebergSyncEnabled := true
  received := received
  channelCloses := true
  CreateLocalCommit := fun repo commits =>
    if 0 ∈ commits then (repo, 5, some "object not found")
    else (repo ++ commits, commits.length, none)
  PushLocalCommits := fun _ => none

/-- An environment in which the user has no project. -/
def noProjectsEnv : MainEnv (List Nat) (List Nat) :=
  { exampleEnv [[1]] with GetUsersProjectsIds := fun _ => .ok [] }

/-- The largest Go `int`. -/
def maxInt64 : Int := 9223372036854775807

/-- An environment whose `CreateLocalCommit` reports `maxInt64` commits for every batch. -/
def hugeCountEnv : MainEnv (List Nat) (List Nat) :=
  { exampleEnv [[1], [2]] with
    CreateLocalCommit := fun repo commits => (repo ++ commits, maxInt64, none) }

/-! ## Lemmas on slices and on the conversion loop -/

theorem goItems_goAppend {α : Type} (s : Option (List α)) (x : α) :
    goItems (goAppend s x) = goItems s ++ [x] := by
  cases s <;> simp [goAppend, goItems]

theorem appendConverted_eq {τ : Type} (w : World τ) (cs : List codebergCommit) :
    ∀ (all : Option (List (Commit τ))) (tick : Nat),
      goItems (appendConverted w cs all tick).1 = goItems all ++ (convertAll w cs tick).1 ∧
      (appendConverted w cs all tick).2 = (convertAll w cs tick).2 := by
  induction cs with
  | nil => intro all tick; simp [appendConverted, convertAll]
  | cons c rest ih =>
    intro all tick
    have h := ih (goAppend all (convertCodebergCommit w c tick).1) (convertCodebergCommit w c tick).2
    simp only [appendConverted, convertAll]
    refine ⟨?_, h.2⟩
    rw [h.1, goItems_goAppend]
    simp

theorem convertAll_append {τ : Type} (w : World τ) (xs ys : List codebergCommit) :
    ∀ tick : Nat,
      convertAll w (xs ++ ys) tick =
        ((convertAll w xs tick).1 ++ (convertAll w ys (convertAll w xs tick).2).1,
          (convertAll w ys (convertAll w xs tick).2).2) := by
  induction xs with
  | nil => intro tick; simp [convertAll]
  | cons c rest ih => intro tick; simp [convertAll, ih]

theorem commitsResult_eq {τ : Type} (owner repo : String) (all : Option (List (Commit τ)))
    (last : List codebergCommit) :
    commitsResult owner repo all = commitsOutcome owner repo (.ok last) (goItems all) := by
  cases all with
  | none => simp [commitsResult, commitsOutcome, goLen, goItems]
  | some xs =>
    cases xs with
    | nil => simp [commitsResult, commitsOutcome, goLen, goItems]
    | cons x rest => simp [commitsResult, commitsOutcome, goLen, goItems]

theorem pageStops_false {ε α : Type} {r : Except ε (List α)} (h : pageStops r = false) :
    ∃ items, r = .ok items ∧ codebergPageSize ≤ items.length := by
  cases r with
  | error e => simp [pageStops] at h
  | ok items => exact ⟨items, rfl, by simpa [pageStops] using h⟩

theorem commitsLoop_run {τ : Type} (w : World τ) (owner repo gitAuthor : String) :
    ∀ (k page n : Nat) (requests : List Request) (all : Option (List (Commit τ)))
      (tick fuel : Nat),
      n = page + k → k < fuel →
      (∀ p, page ≤ p → p < n → pageStops (commitsPage w owner repo gitAuthor p) = false) →
      pageStops (commitsPage w owner repo gitAuthor n) = true →
      commitsLoop w owner repo gitAuthor fuel page requests all tick =
        some ({ requests := requests ++
                  (List.range' page (requestsSent
                      (w.newRequestError (commitsEndpoint w owner repo gitAuthor n)).isNone
                      (k + 1))).map (commitsRequest w owner repo gitAuthor),
                result := commitsOutcome owner repo (commitsPage w owner repo gitAuthor n)
                  (goItems all ++ (convertAll w ((List.range' page (k + 1)).flatMap
                    fun p => pageItems (commitsPage w owner repo gitAuthor p)) tick).1) },
              (convertAll w ((List.range' page (k + 1)).flatMap
                    fun p => pageItems (commitsPage w owner repo gitAuthor p)) tick).2) := by
  intro k
  induction k with
  | zero =>
    intro page n requests all tick fuel hn hfuel _ hstop
    obtain ⟨f, rfl⟩ : ∃ f, fuel = f + 1 := ⟨fuel - 1, by omega⟩
    have hn' : n = page := by omega
    subst hn'
    cases hb : w.newRequestError (commitsEndpoint w owner repo gitAuthor n) with
    | some e =>
      simp [commitsLoop, hb, commitsPage, commitsOutcome, pageItems, convertAll, requestsSent]
    | none =>
      have hfp : fetchPage w w.decodeCommits
          { url := commitsEndpoint w owner repo gitAuthor n,
            authorization := codebergAuthHeader w }
          = commitsPage w owner repo gitAuthor n := by
        simp [commitsPage, hb, commitsRequest]
      simp only [commitsLoop, hb, hfp]
      cases hr : commitsPage w owner repo gitAuthor n with
      | error e =>
        simp [commitsOutcome, pageItems, convertAll, commitsRequest, requestsSent, hr]
      | ok xs =>
        rw [hr] at hstop
        have hlt : xs.length < codebergPageSize := by simpa [pageStops] using hstop
        have hA := appendConverted_eq w xs all tick
        by_cases h0 : xs.length = 0
        · have hx : xs = [] := List.length_eq_zero.mp h0
          subst hx
          simp [commitsResult_eq owner repo all [], pageItems, convertAll, commitsRequest,
            requestsSent, hr]
        · simp only [h0, if_false, hlt, if_true]
          rw [commitsResult_eq owner repo _ xs, hA.1, hA.2]
          simp [pageItems, commitsRequest, requestsSent, hr]
  | succ k ih =>
    intro page n requests all tick fuel hn hfuel hgo hstop
    obtain ⟨f, rfl⟩ : ∃ f, fuel = f + 1 := ⟨fuel - 1, by omega⟩
    obtain ⟨xs, hr, hlen⟩ := pageStops_false (hgo page (le_refl _) (by omega))
    cases hb : w.newRequestError (commitsEndpoint w owner repo gitAuthor page) with
    | some e => simp [commitsPage, hb] at hr
    | none =>
      have hfp : fetchPage w w.decodeCommits
          { url := commitsEndpoint w owner repo gitAuthor page,
            authorization := codebergAuthHeader w }
          = commitsPage w owner repo gitAuthor page := by
        simp [commitsPage, hb, commitsRequest]
      have h0 : ¬ xs.length = 0 := by unfold codebergPageSize at hlen; omega
      have hlt : ¬ xs.length < codebergPageSize := by omega
      have hA := appendConverted_eq w xs all tick
      simp only [commitsLoop, hb, hfp, hr, h0, if_false, hlt]
      rw [ih (page + 1) n _ _ _ f (by omega) (by omega)
        (fun p h1 h2 => hgo p (by omega) h2) hstop]
      rw [hA.1, hA.2]
      have hrange : List.range' page (k + 1 + 1) = page :: List.range' (page + 1) (k + 1) := by
        simp [List.range'_succ]
      have hsent : ∀ b : Bool, List.range' page (requestsSent b (k + 1 + 1)) =
          page :: List.range' (page + 1) (requestsSent b (k + 1)) := by
        intro b
        cases b <;> simp [requestsSent, List.range'_succ]
      rw [hrange, hsent]
      simp [List.flatMap_cons, convertAll_append, pageItems, hr, commitsRequest,
        List.append_assoc]

theorem goAppendAll_append {α : Type} (s : Option (List α)) (xs ys : List α) :
    goAppendAll (goAppendAll s xs) ys = goAppendAll s (xs ++ ys) := by
  cases xs with
  | nil => simp [goAppendAll]
  | cons x xs =>
    cases ys with
    | nil => cases s <;> simp [goAppendAll]
    | cons y ys => cases s <;> simp [goAppendAll]

theorem reposLoop_run {τ : Type} (w : World τ) (username : String) :
    ∀ (k page n : Nat) (requests : List Request) (all : Option (List codebergRepo))
      (fuel : Nat),
      n = page + k → k < fuel →
      (∀ p, page ≤ p → p < n → pageStops (reposPage w username p) = false) →
      pageStops (reposPage w username n) = true →
      reposLoop w username fuel page requests all =
        some { requests := requests ++
                  (List.range' page (requestsSent
                      (w.newRequestError (reposEndpoint w username n)).isNone
                      (k + 1))).map (reposRequest w username),
               result :=
                match reposPage w username n with
                | .error e => { val := none, err := some e }
                | .ok _ =>
                  { val := goAppendAll all ((List.range' page (k + 1)).flatMap
                      fun p => pageItems (reposPage w username p)),
                    err := none } } := by
  intro k
  induction k with
  | zero =>
    intro page n requests all fuel hn hfuel _ hstop
    obtain ⟨f, rfl⟩ : ∃ f, fuel = f + 1 := ⟨fuel - 1, by omega⟩
    have hn' : n = page := by omega
    subst hn'
    cases hb : w.newRequestError (reposEndpoint w username n) with
    | some e =>
      simp [reposLoop, hb, reposPage, requestsSent]
    | none =>
      have hfp : fetchPage w w.decodeRepos
          { url := reposEndpoint w username n, authorization := codebergAuthHeader w }
          = reposPage w username n := by
        simp [reposPage, hb, reposRequest]
      simp only [reposLoop, hb, hfp]
      cases hr : reposPage w username n with
      | error e =>
        simp [reposRequest, requestsSent]
      | ok xs =>
        rw [hr] at hstop
        have hlt : xs.length < codebergPageSize := by simpa [pageStops] using hstop
        by_cases h0 : xs.length = 0
        · have hx : xs = [] := List.length_eq_zero.mp h0
          subst hx
          simp [pageItems, reposRequest, requestsSent, hr, goAppendAll]
        · simp only [h0, if_false, hlt, if_true]
          simp [pageItems, reposRequest, requestsSent, hr]
  | succ k ih =>
    intro page n requests all fuel hn hfuel hgo hstop
    obtain ⟨f, rfl⟩ : ∃ f, fuel = f + 1 := ⟨fuel - 1, by omega⟩
    obtain ⟨xs, hr, hlen⟩ := pageStops_false (hgo page (le_refl _) (by omega))
    cases hb : w.newRequestError (reposEndpoint w username page) with
    | some e => simp [reposPage, hb] at hr
    | none =>
      have hfp : fetchPage w w.decodeRepos
          { url := reposEndpoint w username page, authorization := codebergAuthHeader w }
          = reposPage w username page := by
        simp [reposPage, hb, reposRequest]
      have h0 : ¬ xs.length = 0 := by unfold codebergPageSize at hlen; omega
      have hlt : ¬ xs.length < codebergPageSize := by omega
      simp only [reposLoop, hb, hfp, hr, h0, if_false, hlt]
      rw [ih (page + 1) n _ _ f (by omega) (by omega)
        (fun p h1 h2 => hgo p (by omega) h2) hstop]
      have hrange : List.range' page (k + 1 + 1) = page :: List.range' (page + 1) (k + 1) := by
        simp [List.range'_succ]
      have hsent : ∀ b : Bool, List.range' page (requestsSent b (k + 1 + 1)) =
          page :: List.range' (page + 1) (requestsSent b (k + 1)) := by
        intro b
        cases b <;> simp [requestsSent, List.range'_succ]
      rw [hrange, hsent]
      simp [List.flatMap_cons, goAppendAll_append, pageItems, hr, reposRequest,
        List.append_assoc]

theorem pageStops_of_pageEnds {α : Type} {r : Except FetchError (List α)}
    (h : pageEnds r = true) : pageStops r = true := by
  cases r with
  | error e => rfl
  | ok items => simpa [pageStops, pageEnds] using h

theorem pageStops_of_pageFull {ε α : Type} {r : Except ε (List α)}
    (h : pageFull r = true) : pageStops r = false := by
  cases r with
  | error e => simp [pageFull] at h
  | ok items =>
    have : codebergPageSize ≤ items.length := by simpa [pageFull] using h
    simp only [pageStops, decide_eq_false_iff_not]
    omega

theorem commitsPage_built {τ : Type} {w : World τ} {owner repo gitAuthor : String} {n : Nat}
    (h : pageEnds (commitsPage w owner repo gitAuthor n) = true) :
    w.newRequestError (commitsEndpoint w owner repo gitAuthor n) = none := by
  cases hb : w.newRequestError (commitsEndpoint w owner repo gitAuthor n) with
  | none => rfl
  | some e => simp [commitsPage, hb, pageEnds, responseFailure] at h

theorem reposPage_built {τ : Type} {w : World τ} {username : String} {n : Nat}
    (h : pageEnds (reposPage w username n) = true) :
    w.newRequestError (reposEndpoint w username n) = none := by
  cases hb : w.newRequestError (reposEndpoint w username n) with
  | none => rfl
  | some e => simp [reposPage, hb, pageEnds, responseFailure] at h

theorem GetCodebergRepoCommits_run {τ : Type} (w : World τ) (owner repo gitAuthor : String)
    (n fuel tick : Nat) (howner : owner ≠ "") (hrepo : repo ≠ "")
    (hbase : codebergBaseURL w ≠ "")
    (hn : leastStop (commitsPage w owner repo gitAuthor) n) (hfuel : n ≤ fuel) :
    GetCodebergRepoCommits w fuel owner repo gitAuthor tick =
      some ({ requests := (List.range' 1 n).map (commitsRequest w owner repo gitAuthor),
              result := commitsOutcome owner repo (commitsPage w owner repo gitAuthor n)
                (convertAll w ((List.range' 1 n).flatMap
                  fun p => pageItems (commitsPage w owner repo gitAuthor p)) tick).1 },
            (convertAll w ((List.range' 1 n).flatMap
                  fun p => pageItems (commitsPage w owner repo gitAuthor p)) tick).2) := by
  obtain ⟨h1, hend, hfull⟩ := hn
  obtain ⟨k, rfl⟩ : ∃ k, n = k + 1 := ⟨n - 1, by omega⟩
  have hrun := commitsLoop_run w owner repo gitAuthor k 1 (k + 1) [] none tick fuel
    (by omega) (by omega) (fun p h1 h2 => pageStops_of_pageFull (hfull p h1 h2))
    (pageStops_of_pageEnds hend)
  simp only [GetCodebergRepoCommits, howner, hrepo, hbase, or_self, if_false]
  rw [hrun, commitsPage_built hend]
  simp [requestsSent, goItems]

theorem GetCodebergRepos_run {τ : Type} (w : World τ) (username : String) (n fuel : Nat)
    (huser : username ≠ "") (hbase : codebergBaseURL w ≠ "")
    (hn : leastStop (reposPage w username) n) (hfuel : n ≤ fuel) :
    GetCodebergRepos w fuel username =
      some { requests := (List.range' 1 n).map (reposRequest w username),
             result := reposOutcome (reposPage w username n)
               ((List.range' 1 n).flatMap fun p => pageItems (reposPage w username p)) } := by
  obtain ⟨h1, hend, hfull⟩ := hn
  obtain ⟨k, rfl⟩ : ∃ k, n = k + 1 := ⟨n - 1, by omega⟩
  have hrun := reposLoop_run w username k 1 (k + 1) [] none fuel
    (by omega) (by omega) (fun p h1 h2 => pageStops_of_pageFull (hfull p h1 h2))
    (pageStops_of_pageEnds hend)
  simp only [GetCodebergRepos, huser, hbase, if_false]
  rw [hrun, reposPage_built hend]
  cases hr : reposPage w username (k + 1) with
  | error e => simp [requestsSent, reposOutcome]
  | ok xs =>
    cases hi : (List.range' 1 (k + 1)).flatMap fun p => pageItems (reposPage w username p) with
    | nil => simp [requestsSent, reposOutcome, goAppendAll]
    | cons y ys => simp [requestsSent, reposOutcome, goAppendAll]

theorem limit_suffix (s : String) :
    s ++ "&limit=" ++ toString codebergPageSize = s ++ "&limit=50" := by
  have h : toString codebergPageSize = "50" := by decide
  have h2 : "&limit=" ++ "50" = "&limit=50" := by decide
  rw [h, String.append_assoc, h2]

theorem commitsRequest_eq {τ : Type} (w : World τ) (owner repo gitAuthor : String) (p : Nat) :
    commitsRequest w owner repo gitAuthor p =
      { url := codebergBaseURL w ++ ("/api/v1/repos/" ++ w.pathEscape owner ++ "/"
          ++ w.pathEscape repo ++ "/commits?author=" ++ w.queryEscape gitAuthor
          ++ "&page=" ++ toString p ++ "&limit=50"),
        authorization := "token " ++ w.tokenEnv } := by
  simp only [commitsRequest, commitsEndpoint, codebergAPIURL, codebergAuthHeader, limit_suffix]

theorem reposRequest_eq {τ : Type} (w : World τ) (username : String) (p : Nat) :
    reposRequest w username p =
      { url := codebergBaseURL w ++ ("/api/v1/users/" ++ username ++ "/repos?page="
          ++ toString p ++ "&limit=50"),
        authorization := "token " ++ w.tokenEnv } := by
  simp only [reposRequest, reposEndpoint, codebergAPIURL, codebergAuthHeader, limit_suffix]

theorem commitsLoop_success {τ : Type} (w : World τ) (owner repo gitAuthor : String) :
    ∀ (fuel page : Nat) (requests : List Request) (all : Option (List (Commit τ)))
      (tick : Nat) (run : Run (Commit τ) × Nat),
      commitsLoop w owner repo gitAuthor fuel page requests all tick = some run →
      run.1.result.err = none → 0 < goLen run.1.result.val := by
  intro fuel
  induction fuel with
  | zero => intro page requests all tick run h; simp [commitsLoop] at h
  | succ f ih =>
    intro page requests all tick run h herr
    have hres : ∀ (s : Option (List (Commit τ))),
        (commitsResult owner repo s).err = none → 0 < goLen (commitsResult owner repo s).val := by
      intro s hs
      unfold commitsResult at hs ⊢
      by_cases h0 : goLen s = 0
      · simp [h0] at hs
      · simp only [h0, if_false]
        omega
    simp only [commitsLoop] at h
    split at h
    · simp only [Option.some.injEq] at h
      subst h
      simp at herr
    · split at h
      · simp only [Option.some.injEq] at h
        subst h
        simp at herr
      · split at h
        · simp only [Option.some.injEq] at h
          subst h
          exact hres _ herr
        · split at h
          · simp only [Option.some.injEq] at h
            subst h
            exact hres _ herr
          · exact ih _ _ _ _ run h herr

theorem GetCodebergRepoCommits_success {τ : Type} (w : World τ) (fuel : Nat)
    (owner repo gitAuthor : String) (tick : Nat) (run : Run (Commit τ) × Nat)
    (h : GetCodebergRepoCommits w fuel owner repo gitAuthor tick = some run)
    (herr : run.1.result.err = none) : 0 < goLen run.1.result.val := by
  unfold GetCodebergRepoCommits at h
  split at h
  · simp only [Option.some.injEq] at h
    subst h
    simp at herr
  · split at h
    · simp only [Option.some.injEq] at h
      subst h
      simp at herr
    · exact commitsLoop_success w owner repo gitAuthor _ _ _ _ _ run h herr

theorem commitTask_args {τ : Type} (w : World τ) (fuel : Nat) (username : String)
    (clock : Nat → τ) (owner repoName : String) :
    (commitTask w fuel username clock owner repoName).owner = owner ∧
    (commitTask w fuel username clock owner repoName).repoName = repoName ∧
    (commitTask w fuel username clock owner repoName).gitAuthor = username := by
  unfold commitTask
  split
  · exact ⟨rfl, rfl, rfl⟩
  · split <;> exact ⟨rfl, rfl, rfl⟩

theorem commitTask_listing {τ : Type} (w : World τ) (fuel : Nat) (username : String)
    (clock : Nat → τ) (owner repoName : String) :
    (commitTask w fuel username clock owner repoName).listing =
      (GetCodebergRepoCommits { w with now := clock } fuel owner repoName username 0).map
        Prod.fst := by
  unfold commitTask
  split
  · next h => simp [h]
  · next run t h => split <;> simp [h]

theorem commitTask_sent {τ : Type} (w : World τ) (fuel : Nat) (username : String)
    (clock : Nat → τ) (owner repoName : String) :
    (commitTask w fuel username clock owner repoName).sent =
      listingBatch (commitTask w fuel username clock owner repoName).listing := by
  unfold commitTask
  split
  · rfl
  · next run t h =>
    split
    · next e he => simp [listingBatch, he]
    · next he =>
      have hpos := GetCodebergRepoCommits_success _ fuel owner repoName username 0 (run, t) h he
      simp only [listingBatch, he, if_true]
      simp only [gt_iff_lt, ite_eq_left_iff, not_lt, reduceCtorEq, imp_false, not_le]
      exact hpos

theorem spawnedTasks_cons (r : codebergRepo) (rest : List codebergRepo) :
    spawnedTasks (r :: rest) =
      if repoOwner r = "" ∨ r.Name = "" then spawnedTasks rest
      else (repoOwner r, r.Name) :: spawnedTasks rest := by
  by_cases h : repoOwner r = "" ∨ r.Name = ""
  · have h2 : (if r.Owner.Login = "" then r.Owner.Username else r.Owner.Login) = "" ∨
        r.Name = "" := h
    rw [if_pos h]
    simp only [spawnedTasks, List.filterMap_cons, h2, if_true]
  · have h2 : ¬ ((if r.Owner.Login = "" then r.Owner.Username else r.Owner.Login) = "" ∨
        r.Name = "") := h
    rw [if_neg h]
    simp only [spawnedTasks, List.filterMap_cons, h2, if_false]
    rfl

theorem spawnedTasks_eq (repos : List codebergRepo) :
    spawnedTasks repos =
      (repos.filter fun r => decide (repoOwner r ≠ "" ∧ r.Name ≠ "")).map
        fun r => (repoOwner r, r.Name) := by
  induction repos with
  | nil => rfl
  | cons r rest ih =>
    rw [spawnedTasks_cons, ih]
    by_cases h : repoOwner r = "" ∨ r.Name = ""
    · have hf : ¬ (repoOwner r ≠ "" ∧ r.Name ≠ "") := by tauto
      have hd : ¬ decide (repoOwner r ≠ "" ∧ r.Name ≠ "") = true := by simpa using hf
      rw [if_pos h, List.filter_cons, if_neg hd]
    · have hf : repoOwner r ≠ "" ∧ r.Name ≠ "" := by tauto
      have hd : decide (repoOwner r ≠ "" ∧ r.Name ≠ "") = true := decide_eq_true hf
      rw [if_neg h, List.filter_cons, if_pos hd, List.map_cons]

theorem wrapInt64_range (x : Int) :
    -9223372036854775808 ≤ wrapInt64 x ∧ wrapInt64 x < 9223372036854775808 := by
  unfold wrapInt64
  omega

theorem wrapInt64_of_range (x : Int) (h1 : -9223372036854775808 ≤ x)
    (h2 : x < 9223372036854775808) : wrapInt64 x = x := by
  unfold wrapInt64
  omega

theorem wrapInt64_add (a b : Int) : wrapInt64 (wrapInt64 a + b) = wrapInt64 (a + b) := by
  unfold wrapInt64
  omega

theorem runImporter_eq {β ρ : Type} (create : ρ → β → ρ × Int × Option String) :
    ∀ (batches : List β) (st : ImporterState β ρ),
      (runImporter create batches st).calls
        = st.calls ++ createOutcomes create batches st.repo ∧
      wrapInt64 (runImporter create batches st).totalCommits
        = wrapInt64 (st.totalCommits + (((createOutcomes create batches st.repo).filter
            fun c => c.err.isNone).map fun c => c.localCommits).sum) ∧
      (wrapInt64 st.totalCommits = st.totalCommits →
        wrapInt64 (runImporter create batches st).totalCommits
          = (runImporter create batches st).totalCommits) := by
  intro batches
  induction batches with
  | nil => intro st; simp [runImporter, createOutcomes]
  | cons b rest ih =>
    intro st
    cases he : (create st.repo b).2.2 with
    | none =>
      simp only [runImporter, he, createOutcomes]
      refine ⟨by rw [(ih _).1]; simp, ?_, ?_⟩
      · rw [(ih _).2.1]
        simp only [List.filter_cons, he, Option.isNone_none, if_true, List.map_cons,
          List.sum_cons]
        rw [wrapInt64_add, add_assoc]
      · intro _
        apply (ih _).2.2
        have h := wrapInt64_range (st.totalCommits + (create st.repo b).2.1)
        exact wrapInt64_of_range _ h.1 h.2
    | some e =>
      simp only [runImporter, he, createOutcomes]
      refine ⟨by rw [(ih _).1]; simp, ?_, ?_⟩
      · rw [(ih _).2.1]
        simp [List.filter_cons, he]
      · intro h
        exact (ih _).2.2 h

theorem runImporter_fresh {β ρ : Type} (create : ρ → β → ρ × Int × Option String)
    (batches : List β) (repo : ρ) :
    (runImporter create batches { repo := repo, totalCommits := 0, calls := [] }).totalCommits
      = wrapInt64 (((createOutcomes create batches repo).filter
          fun c => c.err.isNone).map fun c => c.localCommits).sum := by
  have h := runImporter_eq create batches { repo := repo, totalCommits := 0, calls := [] }
  rw [← h.2.2 (wrapInt64_of_range 0 (by omega) (by omega)), h.2.1]
  simp

theorem createOutcomes_commits {β ρ : Type} (create : ρ → β → ρ × Int × Option String) :
    ∀ (batches : List β) (repo : ρ),
      (createOutcomes create batches repo).map (fun c => c.commits) = batches := by
  intro batches
  induction batches with
  | nil => intro repo; rfl
  | cons b rest ih => intro repo; simp [createOutcomes, ih]

theorem countP_isPush_create {β : Type} (l : List (ImportCall β)) :
    (l.map fun c => MainCall.CreateLocalCommit c.commits).countP isPush = 0 := by
  induction l with
  | nil => rfl
  | cons c rest ih => simp [List.countP_cons, isPush, ih]

theorem filterMap_createdBatch_create {β : Type} (l : List (ImportCall β)) :
    (l.map fun c => MainCall.CreateLocalCommit c.commits).filterMap createdBatch
      = l.map fun c => c.commits := by
  induction l with
  | nil => rfl
  | cons c rest ih => simp [createdBatch, ih]

theorem runImporter_calls {β ρ : Type} (env : MainEnv β ρ) (repo : ρ) (c : List (MainCall β))
    (hc : c.countP isPush = 0) (hb : c.filterMap createdBatch = []) :
    (c ++ (runImporter env.CreateLocalCommit env.received
        { repo := repo, totalCommits := 0, calls := [] }).calls.map
        fun x => MainCall.CreateLocalCommit x.commits).countP isPush = 0 ∧
    (c ++ (runImporter env.CreateLocalCommit env.received
        { repo := repo, totalCommits := 0, calls := [] }).calls.map
        fun x => MainCall.CreateLocalCommit x.commits).filterMap createdBatch
      = env.received := by
  have h := (runImporter_eq env.CreateLocalCommit env.received
    { repo := repo, totalCommits := 0, calls := [] }).1
  constructor
  · rw [List.countP_append, countP_isPush_create, hc]
  · rw [List.filterMap_append, filterMap_createdBatch_create, hb, h]
    simp only [List.nil_append, createOutcomes_commits]

/-- The shape of a run of `main`: either the end of the import stage is not reached and no
push is made, or it is reached with total `T` after the calls `pre`, which hold no push and
the `CreateLocalCommit` calls of all the received batches, and the push follows exactly when
`T` is positive. -/
theorem main_shape {β ρ : Type} (env : MainEnv β ρ) :
    ((main env).totalCommitsCreated = none ∧ (main env).calls.countP isPush = 0) ∨
    (∃ (pre : List (MainCall β)) (T : Int),
      env.channelCloses = true ∧ (main env).totalCommitsCreated = some T ∧
      pre.countP isPush = 0 ∧ pre.filterMap createdBatch = env.received ∧
      T = (runImporter env.CreateLocalCommit env.received
            (freshImporter (env.PullLatestChanges env.OpenOrInitClone).1)).totalCommits ∧
      ((0 < T ∧ (main env).calls = pre ++ [.PushLocalCommits]) ∨
        (¬ 0 < T ∧ (main env).calls = pre))) := by
  cases h1 : env.SetupEnv with
  | some e => left; simp [main, h1, isPush]
  | none =>
    cases h2 : env.GetGitlabUser with
    | error e => left; simp [main, h1, h2, isPush]
    | ok uid =>
      cases h3 : env.GetUsersProjectsIds uid with
      | error e => left; simp [main, h1, h2, h3, isPush]
      | ok ids =>
        by_cases h4 : ids.length = 0
        · left; simp [main, h1, h2, h3, h4, isPush]
        · cases h5 : (env.PullLatestChanges env.OpenOrInitClone).2 with
          | some e => left; simp [main, h1, h2, h3, h4, h5, isPush]
          | none =>
            have hpre := runImporter_calls env (env.PullLatestChanges env.OpenOrInitClone).1
              ([MainCall.SetupEnv, .GetGitlabUser, .GetUsersProjectsIds uid] ++
                [.OpenOrInitClone, .PullLatestChanges] ++
                [.goFetchGitLabCommits ids, .IsCodebergSyncEnabled] ++
                (if env.IsCodebergSyncEnabled = true then [MainCall.goFetchCodebergCommits]
                 else []))
              (by cases env.IsCodebergSyncEnabled <;> simp [List.countP_cons, isPush])
              (by cases env.IsCodebergSyncEnabled <;> simp [createdBatch])
            by_cases hclose : env.channelCloses = true
            · right
              by_cases hpos : 0 < (runImporter env.CreateLocalCommit env.received
                  { repo := (env.PullLatestChanges env.OpenOrInitClone).1, totalCommits := 0,
                    calls := [] }).totalCommits
              · refine ⟨_, _, hclose, ?_, hpre.1, hpre.2, rfl, Or.inl ⟨hpos, ?_⟩⟩
                · cases h6 : env.PushLocalCommits (runImporter env.CreateLocalCommit env.received
                    { repo := (env.PullLatestChanges env.OpenOrInitClone).1, totalCommits := 0,
                      calls := [] }).repo <;>
                    simp [main, h1, h2, h3, h4, h5, hclose, hpos, h6, freshImporter]
                · cases h6 : env.PushLocalCommits (runImporter env.CreateLocalCommit env.received
                    { repo := (env.PullLatestChanges env.OpenOrInitClone).1, totalCommits := 0,
                      calls := [] }).repo <;>
                    simp [main, h1, h2, h3, h4, h5, hclose, hpos, h6]
              · refine ⟨_, _, hclose, ?_, hpre.1, hpre.2, rfl, Or.inr ⟨hpos, ?_⟩⟩
                · simp [main, h1, h2, h3, h4, h5, hclose, hpos, freshImporter]
                · simp [main, h1, h2, h3, h4, h5, hclose, hpos]
            · left
              refine ⟨by simp [main, h1, h2, h3, h4, h5, hclose], ?_⟩
              simp only [main, h1, h2, h3, h4, h5, hclose, if_false]
              exact hpre.1

/-- The exit the statements on pagination leave aside: when `http.NewRequestWithContext` rejects
the URL of page 1, `GetCodebergRepoCommits` returns the error without any request. -/
theorem GetCodebergRepoCommits_unbuildable {τ : Type} (w : World τ)
    (owner repo gitAuthor e : String) (fuel tick : Nat)
    (howner : owner ≠ "") (hrepo : repo ≠ "") (hbase : codebergBaseURL w ≠ "")
    (hb : w.newRequestError (commitsEndpoint w owner repo gitAuthor 1) = some e) :
    GetCodebergRepoCommits w (fuel + 1) owner repo gitAuthor tick =
      some ({ requests := [], result := { val := none, err := some (.buildRequest e) } },
            tick) := by
  simp [GetCodebergRepoCommits, howner, hrepo, hbase, commitsLoop, hb]

theorem GetCodebergRepos_unbuildable {τ : Type} (w : World τ) (username e : String)
    (fuel : Nat) (huser : username ≠ "") (hbase : codebergBaseURL w ≠ "")
    (hb : w.newRequestError (reposEndpoint w username 1) = some e) :
    GetCodebergRepos w (fuel + 1) username =
      some { requests := [], result := { val := none, err := some (.buildRequest e) } } := by
  simp [GetCodebergRepos, huser, hbase, reposLoop, hb]

/-! ## The loop iteration against the response of the server -/

theorem fetchPage_eq {τ α : Type} (w : World τ) (decode : String → Except String (List α))
    (req : Request) : fetchPage w decode req = (serverResponse w decode req).toExcept := by
  unfold fetchPage serverResponse
  cases w.clientDo req with
  | error e => rfl
  | ok res =>
    by_cases hs : res.statusCode = 200
    · simp only [hs, ne_eq, not_true_eq_false, if_false, if_true]
      cases decode res.body <;> rfl
    · simp only [hs, ne_eq, not_false_eq_true, if_true, if_false]
      rfl

theorem commitsPage_of_built {τ : Type} (w : World τ) (owner repo gitAuthor : String) (p : Nat)
    (hb : w.newRequestError (commitsEndpoint w owner repo gitAuthor p) = none) :
    commitsPage w owner repo gitAuthor p
      = (commitsResponse w owner repo gitAuthor p).toExcept := by
  simp only [commitsPage, hb, commitsResponse, fetchPage_eq]

theorem reposPage_of_built {τ : Type} (w : World τ) (username : String) (p : Nat)
    (hb : w.newRequestError (reposEndpoint w username p) = none) :
    reposPage w username p = (reposResponse w username p).toExcept := by
  simp only [reposPage, hb, reposResponse, fetchPage_eq]

theorem pageEnds_toExcept {α : Type} (r : ServerResponse α) : pageEnds r.toExcept = r.ends := by
  cases r <;> rfl

theorem pageFull_toExcept {α : Type} (r : ServerResponse α) (h : r.ends = false) :
    pageFull r.toExcept = true := by
  cases r with
  | items array =>
    have h2 : ¬ array.length < codebergPageSize := by
      simpa [ServerResponse.ends] using h
    simp only [ServerResponse.toExcept, pageFull, decide_eq_true_eq]
    omega
  | transportError c => simp [ServerResponse.ends] at h
  | badStatus c b => simp [ServerResponse.ends] at h
  | decodeError c => simp [ServerResponse.ends] at h

theorem pageItems_toExcept {α : Type} (r : ServerResponse α) :
    pageItems r.toExcept = r.held := by
  cases r <;> rfl

theorem pageFails_toExcept {α : Type} (r : ServerResponse α) :
    pageFails r.toExcept = r.fails := by
  cases r <;> rfl

theorem leastStop_commits {τ : Type} (w : World τ) (owner repo gitAuthor : String) (n : Nat)
    (hbuild : ∀ p, 1 ≤ p → p ≤ n →
      w.newRequestError (commitsEndpoint w owner repo gitAuthor p) = none)
    (hn : stopsAt (commitsResponse w owner repo gitAuthor) n) :
    leastStop (commitsPage w owner repo gitAuthor) n := by
  obtain ⟨h1, hend, hfull⟩ := hn
  refine ⟨h1, ?_, ?_⟩
  · rw [commitsPage_of_built w owner repo gitAuthor n (hbuild n h1 (le_refl _)),
      pageEnds_toExcept]
    exact hend
  · intro p hp1 hp2
    rw [commitsPage_of_built w owner repo gitAuthor p (hbuild p hp1 (by omega))]
    exact pageFull_toExcept _ (hfull p hp1 hp2)

theorem leastStop_repos {τ : Type} (w : World τ) (username : String) (n : Nat)
    (hbuild : ∀ p, 1 ≤ p → p ≤ n → w.newRequestError (reposEndpoint w username p) = none)
    (hn : stopsAt (reposResponse w username) n) :
    leastStop (reposPage w username) n := by
  obtain ⟨h1, hend, hfull⟩ := hn
  refine ⟨h1, ?_, ?_⟩
  · rw [reposPage_of_built w username n (hbuild n h1 (le_refl _)), pageEnds_toExcept]
    exact hend
  · intro p hp1 hp2
    rw [reposPage_of_built w username p (hbuild p hp1 (by omega))]
    exact pageFull_toExcept _ (hfull p hp1 hp2)

theorem reposItems_of_built {τ : Type} (w : World τ) (username : String) (n : Nat)
    (hbuild : ∀ p, 1 ≤ p → p ≤ n → w.newRequestError (reposEndpoint w username p) = none) :
    ((List.range' 1 n).flatMap fun p => pageItems (reposPage w username p))
      = (List.range' 1 n).flatMap fun p => (reposResponse w username p).held := by
  apply List.flatMap_congr
  intro p hp
  rw [List.mem_range'_1] at hp
  rw [reposPage_of_built w username p (hbuild p hp.1 (by omega)), pageItems_toExcept]

/-! ## Properties of the program -/

/-- C4: `convertCodebergCommit`, for every payload: the ID is `sha` when `sha` is non-empty and
`id` otherwise; AuthorName is `commit.author.name` when non-empty and the top-level
`author.name` otherwise; AuthorMail is `commit.author.email` when non-empty and the top-level
`author.email` otherwise, independently of the name; Message is the payload's message.  Hence
the ID is non-empty whenever `sha` or `id` is, and a payload with only `id` and the top-level
author fields yields that `id` and the top-level name and email. -/
theorem convertCodebergCommit_fields {τ : Type} (w : World τ) (c : codebergCommit)
    (tick : Nat) :
    (convertCodebergCommit w c tick).1.ID = (if c.Sha ≠ "" then c.Sha else c.ID) ∧
    (convertCodebergCommit w c tick).1.AuthorName =
      (if c.Commit.Author.Name ≠ "" then c.Commit.Author.Name else c.Author.Name) ∧
    (convertCodebergCommit w c tick).1.AuthorMail =
      (if c.Commit.Author.Email ≠ "" then c.Commit.Author.Email else c.Author.Email) ∧
    (convertCodebergCommit w c tick).1.Message = c.Message ∧
    ((c.Sha ≠ "" ∨ c.ID ≠ "") → (convertCodebergCommit w c tick).1.ID ≠ "") ∧
    (c.Sha = "" → c.Commit.Author.Name = "" → c.Commit.Author.Email = "" →
      (convertCodebergCommit w c tick).1.ID = c.ID ∧
      (convertCodebergCommit w c tick).1.AuthorName = c.Author.Name ∧
      (convertCodebergCommit w c tick).1.AuthorMail = c.Author.Email) := by
  unfold convertCodebergCommit
  cases hp : w.parseRFC3339
      (if c.Commit.Author.Date = "" then c.Author.Date else c.Commit.Author.Date) <;>
    by_cases h1 : c.Sha = "" <;> by_cases h2 : c.Commit.Author.Name = "" <;>
    by_cases h3 : c.Commit.Author.Email = "" <;> by_cases h4 : c.ID = "" <;>
    simp [hp, h1, h2, h3, h4]

/-- Witness of C4: a payload with only `id` and the top-level author fields. -/
theorem convertCodebergCommit_fields_witness :
    (convertCodebergCommit testWorld
      { Sha := "", ID := "def456", Message := "fix",
        Commit := { Author := { Name := "", Email := "", Date := "" } },
        Author := { Name := "Top", Email := "top@example.com", Date := "" } } 0).1.ID = "def456" ∧
    (convertCodebergCommit testWorld
      { Sha := "", ID := "def456", Message := "fix",
        Commit := { Author := { Name := "", Email := "", Date := "" } },
        Author := { Name := "Top", Email := "top@example.com", Date := "" } } 0).1.AuthorName
      = "Top" ∧
    (convertCodebergCommit testWorld
      { Sha := "", ID := "def456", Message := "fix",
        Commit := { Author := { Name := "", Email := "", Date := "" } },
        Author := { Name := "Top", Email := "top@example.com", Date := "" } } 0).1.AuthorMail
      = "top@example.com" :=
  (convertCodebergCommit_fields testWorld
      { Sha := "", ID := "def456", Message := "fix",
        Commit := { Author := { Name := "", Email := "", Date := "" } },
        Author := { Name := "Top", Email := "top@example.com", Date := "" } } 0).2.2.2.2.2
    rfl rfl rfl

/-- C5: `convertCodebergCommit` returns a record for every payload (the function has no
failure value), and its AuthoredDate is fixed as follows: the date string is the nested `commit.author.date`, or the top-level
`author.date` when the nested one is empty; if that string parses as RFC 3339 the
AuthoredDate is the parsed instant (and the clock is not read); if it does not parse, both
strings being empty included, the AuthoredDate is the reading of `time.Now()`.  For the nested
date 2024-01-01T12:00:00Z the AuthoredDate is the instant that string parses to. -/
theorem convertCodebergCommit_date {τ : Type} (w : World τ) (c : codebergCommit)
    (tick : Nat) :
    (∀ t, w.parseRFC3339
        (if c.Commit.Author.Date = "" then c.Author.Date else c.Commit.Author.Date) = some t →
      (convertCodebergCommit w c tick).1.AuthoredDate = t ∧
      (convertCodebergCommit w c tick).2 = tick) ∧
    (w.parseRFC3339
        (if c.Commit.Author.Date = "" then c.Author.Date else c.Commit.Author.Date) = none →
      (convertCodebergCommit w c tick).1.AuthoredDate = w.now tick ∧
      (convertCodebergCommit w c tick).2 = tick + 1) ∧
    (c.Commit.Author.Date = "" → c.Author.Date = "" → w.parseRFC3339 "" = none →
      (convertCodebergCommit w c tick).1.AuthoredDate = w.now tick) ∧
    (∀ t, c.Commit.Author.Date = "2024-01-01T12:00:00Z" →
      w.parseRFC3339 "2024-01-01T12:00:00Z" = some t →
      (convertCodebergCommit w c tick).1.AuthoredDate = t) := by
  refine ⟨?_, ?_, ?_, ?_⟩
  · intro t ht
    simp [convertCodebergCommit, ht]
  · intro hnone
    simp [convertCodebergCommit, hnone]
  · intro h1 h2 hnone
    simp [convertCodebergCommit, h1, h2, hnone]
  · intro t h1 ht
    simp [convertCodebergCommit, h1, ht]

/-- Witness of C5: the commit of the test has the nested date 2024-01-01T12:00:00Z, which the
example reader parses, and a payload without any date gets the clock's reading. -/
theorem convertCodebergCommit_date_witness :
    (convertCodebergCommit testWorld testCommit 0).1.AuthoredDate
      = { year := 2024, month := 1, day := 1, hour := 12, minute := 0, second := 0 } ∧
    (convertCodebergCommit testWorld
      { Sha := "", ID := "def456", Message := "fix",
        Commit := { Author := { Name := "", Email := "", Date := "" } },
        Author := { Name := "Top", Email := "top@example.com", Date := "" } } 7).1.AuthoredDate
      = testWorld.now 7 :=
  ⟨(convertCodebergCommit_date testWorld testCommit 0).2.2.2
      { year := 2024, month := 1, day := 1, hour := 12, minute := 0, second := 0 }
      rfl (by decide),
   (convertCodebergCommit_date testWorld
      { Sha := "", ID := "def456", Message := "fix",
        Commit := { Author := { Name := "", Email := "", Date := "" } },
        Author := { Name := "Top", Email := "top@example.com", Date := "" } } 7).2.2.1
      rfl rfl (by decide)⟩

/-- C8: `FetchCodebergCommits`, for every list of repos returned by the discovery and every
outcome of the listings: with owner(r) the owner login of `r`, or its owner username when the
login is empty, `GetCodebergRepoCommits` is called exactly once for each repo with owner(r)
and name both non-empty, with the arguments (owner(r), name, username), and for no other
repo; the multiset of batches sent on the queue is the multiset of the results of the calls
that succeeded.  Hence a listing that fails withholds its own batch only: the batch of every
listing that succeeds is delivered. -/
theorem FetchCodebergCommits_batches {τ : Type} (w : World τ) (fuel : Nat) (username : String)
    (clocks : Nat → Nat → τ) (d : Run codebergRepo)
    (hd : GetCodebergRepos w fuel username = some d) (herr : d.result.err = none) :
    ((FetchCodebergCommits w fuel username clocks).tasks.map
        (fun t => (t.owner, t.repoName, t.gitAuthor))
      = ((goItems d.result.val).filter fun r => decide (repoOwner r ≠ "" ∧ r.Name ≠ "")).map
          fun r => (repoOwner r, r.Name, username)) ∧
    (∀ i t, (FetchCodebergCommits w fuel username clocks).tasks[i]? = some t →
      t.listing = (GetCodebergRepoCommits { w with now := clocks i } fuel
        t.owner t.repoName t.gitAuthor 0).map Prod.fst) ∧
    ((FetchCodebergCommits w fuel username clocks).sent
      = Multiset.ofList ((FetchCodebergCommits w fuel username clocks).tasks.filterMap
          fun t => listingBatch t.listing)) ∧
    (∀ t ∈ (FetchCodebergCommits w fuel username clocks).tasks, ∀ run,
      t.listing = some run → run.result.err = none →
      goItems run.result.val ∈ (FetchCodebergCommits w fuel username clocks).sent) := by
  have htasks : (FetchCodebergCommits w fuel username clocks).tasks =
      (spawnedTasks (goItems d.result.val)).enum.map
        fun it => commitTask w fuel username (clocks it.1) it.2.1 it.2.2 := by
    simp only [FetchCodebergCommits, hd, herr]
  have hsent : (FetchCodebergCommits w fuel username clocks).sent =
      Multiset.ofList ((FetchCodebergCommits w fuel username clocks).tasks.filterMap
        fun t => t.sent) := by
    simp only [FetchCodebergCommits, hd, herr]
  have hbatch : ∀ t ∈ (FetchCodebergCommits w fuel username clocks).tasks,
      t.sent = listingBatch t.listing := by
    intro t ht
    rw [htasks, List.mem_map] at ht
    obtain ⟨it, _, rfl⟩ := ht
    exact commitTask_sent w fuel username (clocks it.1) it.2.1 it.2.2
  have hsent2 : (FetchCodebergCommits w fuel username clocks).sent
      = Multiset.ofList ((FetchCodebergCommits w fuel username clocks).tasks.filterMap
          fun t => listingBatch t.listing) := by
    rw [hsent]
    congr 1
    exact List.filterMap_congr hbatch
  refine ⟨?_, ?_, hsent2, ?_⟩
  · rw [htasks, List.map_map, spawnedTasks_eq]
    have hfun : ((fun t : TaskRun τ => (t.owner, t.repoName, t.gitAuthor)) ∘
        fun it : Nat × String × String =>
          commitTask w fuel username (clocks it.1) it.2.1 it.2.2)
        = (fun p : String × String => (p.1, p.2, username)) ∘ Prod.snd := by
      funext it
      have h := commitTask_args w fuel username (clocks it.1) it.2.1 it.2.2
      simp only [Function.comp, h.1, h.2.1, h.2.2]
    rw [hfun, ← List.map_map, List.enum_map_snd, List.map_map]
    rfl
  · intro i t hi
    rw [htasks, List.getElem?_map, List.getElem?_enum] at hi
    cases ha : (spawnedTasks (goItems d.result.val))[i]? with
    | none => simp [ha] at hi
    | some a =>
      simp only [ha, Option.map_some', Option.some.injEq] at hi
      subst hi
      have h := commitTask_args w fuel username (clocks i) a.1 a.2
      rw [h.1, h.2.1, h.2.2]
      exact commitTask_listing w fuel username (clocks i) a.1 a.2
  · intro t ht run hl he
    rw [hsent2, Multiset.mem_coe, List.mem_filterMap]
    exact ⟨t, ht, by simp [listingBatch, hl, he]⟩

/-- Witness of C8: of four discovered repos one has no name and is skipped, one fails to list
(status 500) and two succeed; three calls are made and the two batches are delivered. -/
theorem FetchCodebergCommits_batches_witness :
    (FetchCodebergCommits fourReposWorld 3 "testuser" exampleClocks).tasks.map
        (fun t => (t.owner, t.repoName, t.gitAuthor))
      = [("testuser", "example", "testuser"), ("testuser", "broken", "testuser"),
         ("org", "other", "testuser")] ∧
    (FetchCodebergCommits fourReposWorld 3 "testuser" exampleClocks).sent
      = Multiset.ofList [(convertAll fourReposWorld [testCommit] 0).1,
          [{ ID := "def456", Message := "fix", AuthorName := "Top",
             AuthorMail := "top@example.com", AuthoredDate := exampleClocks 2 0 }]] := by
  have h := FetchCodebergCommits_batches fourReposWorld 3 "testuser" exampleClocks
    { requests := [reposRequest fourReposWorld "testuser" 1],
      result := { val := some fourRepos, err := none } }
    (by decide) rfl
  refine ⟨h.1.trans (by decide), h.2.2.1.trans ?_⟩
  congr 1


/-- C1, as stated, fails: with the base URL `http://127.0.0.1:8080/%zz` the owner, the repo and
the base URL are non-empty and the server, seen as a function of the page number, ends the
pagination at page 1 (an empty array), yet `http.NewRequestWithContext` rejects the URL and
the call returns its error without having made any request, not one. -/
theorem GetCodebergRepoCommits_requests_counterexample :
    "testuser" ≠ "" ∧ "example" ≠ "" ∧ codebergBaseURL badBaseWorld ≠ "" ∧
    stopsAt (commitsResponse badBaseWorld "testuser" "example" "testuser") 1 ∧
    GetCodebergRepoCommits badBaseWorld 3 "testuser" "example" "testuser" 0
      = some ({ requests := [],
                result := { val := none, err := some (.buildRequest "invalid URL escape") } },
              0) ∧
    ¬ ∃ run, GetCodebergRepoCommits badBaseWorld 3 "testuser" "example" "testuser" 0 = some run ∧
        run.1.requests.length = 1 := by
  have hrun : GetCodebergRepoCommits badBaseWorld 3 "testuser" "example" "testuser" 0
      = some ({ requests := [],
                result := { val := none, err := some (.buildRequest "invalid URL escape") } },
              0) := by decide
  refine ⟨by decide, by decide, by decide, by decide, hrun, ?_⟩
  rintro ⟨run, h, hlen⟩
  rw [hrun] at h
  cases h
  simp at hlen

/-- C1 (amended): for `GetCodebergRepoCommits` with non-empty owner, repo and base URL: if `n`
is the least page whose response is a failure (transport error, status other than 200, decode
error) or a decoded array of fewer than 50 items, zero included, and
`http.NewRequestWithContext` accepts the URL of each of the pages `1..n`, then with fuel for
`n` iterations the call returns, and the requests it has made are exactly those of pages
`1..n`, in increasing order, each with `limit=50`: `n` requests, none for a later page.  In
particular 50 items on page 1 and none on page 2 give exactly two requests.  When the URL of
page 1 is rejected the call returns that error and makes no request. -/
theorem GetCodebergRepoCommits_requests {τ : Type} (w : World τ)
    (owner repo gitAuthor : String) (fuel tick : Nat)
    (howner : owner ≠ "") (hrepo : repo ≠ "") (hbase : codebergBaseURL w ≠ "") :
    (∀ n, stopsAt (commitsResponse w owner repo gitAuthor) n →
      (∀ p, 1 ≤ p → p ≤ n →
        w.newRequestError (commitsEndpoint w owner repo gitAuthor p) = none) →
      n ≤ fuel →
      ∃ run, GetCodebergRepoCommits w fuel owner repo gitAuthor tick = some run ∧
        run.1.requests = (List.range' 1 n).map (fun p =>
          ({ url := codebergBaseURL w ++ ("/api/v1/repos/" ++ w.pathEscape owner ++ "/"
                ++ w.pathEscape repo ++ "/commits?author=" ++ w.queryEscape gitAuthor
                ++ "&page=" ++ toString p ++ "&limit=50"),
             authorization := "token " ++ w.tokenEnv } : Request)) ∧
        run.1.requests.length = n) ∧
    (∀ items, commitsResponse w owner repo gitAuthor 1 = .items items → items.length = 50 →
      commitsResponse w owner repo gitAuthor 2 = .items [] →
      (∀ p, 1 ≤ p → p ≤ 2 →
        w.newRequestError (commitsEndpoint w owner repo gitAuthor p) = none) →
      2 ≤ fuel →
      ∃ run, GetCodebergRepoCommits w fuel owner repo gitAuthor tick = some run ∧
        run.1.requests.length = 2) ∧
    (∀ e, w.newRequestError (commitsEndpoint w owner repo gitAuthor 1) = some e → 1 ≤ fuel →
      ∃ run, GetCodebergRepoCommits w fuel owner repo gitAuthor tick = some run ∧
        run.1.requests = [] ∧ run.1.result = { val := none, err := some (.buildRequest e) }) := by
  have main : ∀ n, stopsAt (commitsResponse w owner repo gitAuthor) n →
      (∀ p, 1 ≤ p → p ≤ n →
        w.newRequestError (commitsEndpoint w owner repo gitAuthor p) = none) →
      n ≤ fuel →
      ∃ run, GetCodebergRepoCommits w fuel owner repo gitAuthor tick = some run ∧
        run.1.requests = (List.range' 1 n).map (fun p =>
          ({ url := codebergBaseURL w ++ ("/api/v1/repos/" ++ w.pathEscape owner ++ "/"
                ++ w.pathEscape repo ++ "/commits?author=" ++ w.queryEscape gitAuthor
                ++ "&page=" ++ toString p ++ "&limit=50"),
             authorization := "token " ++ w.tokenEnv } : Request)) ∧
        run.1.requests.length = n := by
    intro n hn hbuild hfuel
    refine ⟨_, GetCodebergRepoCommits_run w owner repo gitAuthor n fuel tick howner hrepo hbase
      (leastStop_commits w owner repo gitAuthor n hbuild hn) hfuel, ?_, by simp⟩
    exact List.map_congr_left fun p _ => commitsRequest_eq w owner repo gitAuthor p
  refine ⟨main, ?_, ?_⟩
  · intro items h1 hlen h2 hbuild hfuel
    have hn : stopsAt (commitsResponse w owner repo gitAuthor) 2 := by
      refine ⟨by omega, by simp [h2, ServerResponse.ends, codebergPageSize], ?_⟩
      intro p hp1 hp2
      have hp : p = 1 := by omega
      subst hp
      simp [h1, ServerResponse.ends, codebergPageSize, hlen]
    obtain ⟨run, hrun, _, hl⟩ := main 2 hn hbuild hfuel
    exact ⟨run, hrun, hl⟩
  · intro e he hfuel
    obtain ⟨f, rfl⟩ : ∃ f, fuel = f + 1 := ⟨fuel - 1, by omega⟩
    exact ⟨_, GetCodebergRepoCommits_unbuildable w owner repo gitAuthor e f tick howner hrepo
      hbase he, rfl, rfl⟩

/-- Witness of C1 (amended): 50 commits on page 1 and none on page 2 give the two requests of
pages 1 and 2. -/
theorem GetCodebergRepoCommits_requests_witness :
    ∃ run, GetCodebergRepoCommits fiftyThenNoneWorld 5 "testuser" "example" "testuser" 0
        = some run ∧
      run.1.requests =
        [{ url := "http://127.0.0.1:8080/api/v1/repos/testuser/example/commits?author=testuser&page=1&limit=50",
           authorization := "token codeberg-token" },
         { url := "http://127.0.0.1:8080/api/v1/repos/testuser/example/commits?author=testuser&page=2&limit=50",
           authorization := "token codeberg-token" }] ∧
      run.1.requests.length = 2 :=
  (GetCodebergRepoCommits_requests fiftyThenNoneWorld "testuser" "example" "testuser" 5 0
      (by decide) (by decide) (by decide)).1 2 (by decide) (fun _ _ _ => rfl) (by decide)

/-- C9, as stated, fails: for the username `%zz`, written into the URL unescaped, the username
and the base URL are non-empty and page 1 of the server decodes to an empty array, so that the
statement promises an empty list and no error; `http.NewRequestWithContext` rejects the URL
and the call returns that error, without any request. -/
theorem GetCodebergRepos_pages_counterexample :
    "%zz" ≠ "" ∧ codebergBaseURL escapeWorld ≠ "" ∧
    stopsAt (reposResponse escapeWorld "%zz") 1 ∧
    reposResponse escapeWorld "%zz" 1 = .items [] ∧
    GetCodebergRepos escapeWorld 3 "%zz"
      = some { requests := [],
               result := { val := none, err := some (.buildRequest "invalid URL escape") } } ∧
    ¬ ∃ run, GetCodebergRepos escapeWorld 3 "%zz" = some run ∧ run.result.err = none := by
  have hrun : GetCodebergRepos escapeWorld 3 "%zz"
      = some { requests := [],
               result := { val := none, err := some (.buildRequest "invalid URL escape") } } := by
    decide
  refine ⟨by decide, by decide, by decide, by decide, hrun, ?_⟩
  rintro ⟨run, h, herr⟩
  rw [hrun] at h
  cases h
  simp at herr

/-- C9 (amended): for `GetCodebergRepos` with non-empty username and base URL, let `n` be the
least page whose response is a failure or a decoded array of fewer than 50 repos, let
`http.NewRequestWithContext` accept the URL of each of the pages `1..n`, and let the fuel
cover `n` iterations.  If pages `1..n` all decode successfully the call returns, with no
error, exactly the repos of pages `1..n` in page order and in-page order (a nil slice, that is
an empty list, with no error when page 1 is empty); if page `n` is a failure (transport
error, status other than 200, decode error) the call returns an error and no repos.  A server
with one repo on page 1 gives exactly that repo.  When the URL of page 1 is rejected the call
returns that error and no repos, without any request. -/
theorem GetCodebergRepos_pages {τ : Type} (w : World τ) (username : String) (fuel : Nat)
    (huser : username ≠ "") (hbase : codebergBaseURL w ≠ "") :
    (∀ n, stopsAt (reposResponse w username) n →
      (∀ p, 1 ≤ p → p ≤ n → w.newRequestError (reposEndpoint w username p) = none) →
      n ≤ fuel →
      ∃ run, GetCodebergRepos w fuel username = some run ∧
        ((∀ p, 1 ≤ p → p ≤ n → (reposResponse w username p).fails = false) →
          run.result.err = none ∧
          goItems run.result.val
            = (List.range' 1 n).flatMap fun p => (reposResponse w username p).held) ∧
        ((reposResponse w username n).fails = true →
          run.result.err ≠ none ∧ run.result.val = none) ∧
        (reposResponse w username 1 = .items [] →
          run.result = { val := none, err := none }) ∧
        (∀ r, reposResponse w username 1 = .items [r] →
          run.result = { val := some [r], err := none })) ∧
    (∀ e, w.newRequestError (reposEndpoint w username 1) = some e → 1 ≤ fuel →
      GetCodebergRepos w fuel username
        = some { requests := [], result := { val := none, err := some (.buildRequest e) } }) := by
  constructor
  · intro n hn hbuild hfuel
    have hrun := GetCodebergRepos_run w username n fuel huser hbase
      (leastStop_repos w username n hbuild hn) hfuel
    rw [reposItems_of_built w username n hbuild,
      reposPage_of_built w username n (hbuild n hn.1 (le_refl _))] at hrun
    obtain ⟨h1, hend, hfull⟩ := hn
    have hone : ∀ xs : List codebergRepo, reposResponse w username 1 = .items xs →
        xs.length < 50 → n = 1 := by
      intro xs hxs hlen
      by_contra hne
      have hf := hfull 1 (le_refl _) (by omega)
      rw [hxs] at hf
      simp [ServerResponse.ends, codebergPageSize] at hf
      omega
    refine ⟨_, hrun, ?_, ?_, ?_, ?_⟩
    · intro hok
      have hq := hok n h1 (le_refl _)
      cases hr : reposResponse w username n with
      | items array =>
        cases hi : (List.range' 1 n).flatMap fun p => (reposResponse w username p).held with
        | nil => simp [ServerResponse.toExcept, reposOutcome, goItems]
        | cons y ys => simp [ServerResponse.toExcept, reposOutcome, goItems]
      | transportError c => simp [hr, ServerResponse.fails] at hq
      | badStatus c b => simp [hr, ServerResponse.fails] at hq
      | decodeError c => simp [hr, ServerResponse.fails] at hq
    · intro hfail
      cases hr : reposResponse w username n with
      | items array => simp [hr, ServerResponse.fails] at hfail
      | transportError c => simp [ServerResponse.toExcept, reposOutcome]
      | badStatus c b => simp [ServerResponse.toExcept, reposOutcome]
      | decodeError c => simp [ServerResponse.toExcept, reposOutcome]
    · intro hp
      have hn1 := hone [] hp (by simp)
      subst hn1
      simp [hp, ServerResponse.toExcept, reposOutcome, ServerResponse.held]
    · intro r hp
      have hn1 := hone [r] hp (by simp)
      subst hn1
      simp [hp, ServerResponse.toExcept, reposOutcome, ServerResponse.held]
  · intro e he hfuel
    obtain ⟨f, rfl⟩ : ∃ f, fuel = f + 1 := ⟨fuel - 1, by omega⟩
    exact GetCodebergRepos_unbuildable w username e f huser hbase he

/-- Witness of C9 (amended): the server of `TestGetCodebergRepos`, with one repo on page 1. -/
theorem GetCodebergRepos_pages_witness :
    ∃ run, GetCodebergRepos testWorld 3 "testuser" = some run ∧
      run.result = { val := some [{ Name := "repo",
                                    Owner := { Login := "testuser", Username := "" } }],
                     err := none } := by
  obtain ⟨run, hrun, _, _, _, hone⟩ :=
    (GetCodebergRepos_pages testWorld "testuser" 3 (by decide) (by decide)).1 1
      (by decide) (fun _ _ _ => rfl) (by decide)
  exact ⟨run, hrun, hone testRepo (by decide)⟩

/-- C6: in `main`, for every run that reaches the end of the import stage with total `T` (the
value of `totalCommitsCreated`), `PushLocalCommits` is called exactly once if `T > 0` and not
at all otherwise; a run that does not reach that point makes no push; a push, when there is
one, is the last call of the run, made after the channel was closed and after the
`CreateLocalCommit` calls of all the received batches; and the early exit for a user without
projects makes no push. -/
theorem main_push {β ρ : Type} (env : MainEnv β ρ) :
    (∀ T, (main env).totalCommitsCreated = some T →
      (main env).calls.countP isPush = if 0 < T then 1 else 0) ∧
    ((main env).totalCommitsCreated = none → (main env).calls.countP isPush = 0) ∧
    (∀ pre post, (main env).calls = pre ++ MainCall.PushLocalCommits :: post →
      post = [] ∧ pre.countP isPush = 0 ∧ pre.filterMap createdBatch = env.received ∧
      env.channelCloses = true) ∧
    (∀ uid, env.SetupEnv = none → env.GetGitlabUser = .ok uid →
      env.GetUsersProjectsIds uid = .ok [] →
      (main env).calls.countP isPush = 0 ∧ (main env).exit = .returned) := by
  have hshape := main_shape env
  refine ⟨?_, ?_, ?_, ?_⟩
  · intro T hT
    rcases hshape with ⟨hnone, _⟩ | ⟨pre, T0, _, hsome, hpre, _, _, hcase⟩
    · rw [hnone] at hT; cases hT
    · rw [hsome] at hT
      cases hT
      rcases hcase with ⟨hpos, hcalls⟩ | ⟨hneg, hcalls⟩
      · rw [hcalls, List.countP_append, hpre, if_pos hpos]
        rfl
      · rw [hcalls, hpre, if_neg hneg]
  · intro hnone
    rcases hshape with ⟨_, h0⟩ | ⟨pre, T0, _, hsome, _⟩
    · exact h0
    · rw [hsome] at hnone; cases hnone
  · intro pre post hcalls
    have hcount : (main env).calls.countP isPush
        = pre.countP isPush + 1 + post.countP isPush := by
      rw [hcalls, List.countP_append, List.countP_cons]
      simp [isPush]
      omega
    rcases hshape with ⟨_, h0⟩ | ⟨pre0, T0, hclose, _, hpre, hrecv, _, hcase⟩
    · omega
    · rcases hcase with ⟨_, hc⟩ | ⟨_, hc⟩
      · have hone : (main env).calls.countP isPush = 1 := by
          rw [hc, List.countP_append, hpre]
          rfl
        have hpost : post = [] := by
          rcases List.eq_nil_or_concat post with hnil | ⟨L, b, hL⟩
          · exact hnil
          · exfalso
            have h3 : (pre ++ MainCall.PushLocalCommits :: L) ++ [b]
                = pre0 ++ [MainCall.PushLocalCommits] := by
              rw [← hc, hcalls, hL]
              simp
            have hb := (List.append_inj' h3 rfl).2
            simp only [List.cons.injEq, and_true] at hb
            have hpos : 0 < post.countP isPush :=
              List.countP_pos_iff.mpr ⟨b, by rw [hL]; simp, by rw [hb]; rfl⟩
            omega
        subst hpost
        have heq : pre = pre0 := by
          have h3 : pre ++ [MainCall.PushLocalCommits] = pre0 ++ [MainCall.PushLocalCommits] := by
            rw [← hcalls, hc]
          exact List.append_cancel_right h3
        subst heq
        exact ⟨rfl, hpre, hrecv, hclose⟩
      · have hzero : (main env).calls.countP isPush = 0 := by rw [hc, hpre]
        omega
  · intro uid h1 h2 h3
    simp [main, h1, h2, h3, isPush]

/-- Witness of C6: three batches of which the second fails to import give the total 3 and one
push, made last; a user without projects gives no push; and two batches that each report the
largest `int` leave `totalCommitsCreated` at -2, so that no push is made. -/
theorem main_push_witness :
    (main (exampleEnv [[1, 2], [0, 3], [4]])).totalCommitsCreated = some 3 ∧
    (main (exampleEnv [[1, 2], [0, 3], [4]])).calls.countP isPush = 1 ∧
    (main (exampleEnv [[0]])).totalCommitsCreated = some 0 ∧
    (main (exampleEnv [[0]])).calls.countP isPush = 0 ∧
    (main noProjectsEnv).calls.countP isPush = 0 ∧
    (main hugeCountEnv).totalCommitsCreated = some (-2) ∧
    (main hugeCountEnv).calls.countP isPush = 0 :=
  ⟨by decide,
   (main_push (exampleEnv [[1, 2], [0, 3], [4]])).1 3 (by decide),
   by decide,
   (main_push (exampleEnv [[0]])).1 0 (by decide),
   ((main_push noProjectsEnv).2.2.2 42 rfl rfl rfl).1,
   by decide,
   ((main_push hugeCountEnv).1 (-2) (by decide)).trans (by decide)⟩


/-- C7, as stated, fails: when `CreateLocalCommit` reports the largest `int` for each of two
batches, both calls succeed and their counts add up to 18446744073709551614, while the Go
`int` `totalCommits` wraps round and the total reported is -2. -/
theorem runImporter_total_counterexample :
    (runImporter hugeCountEnv.CreateLocalCommit [[1], [2]] (freshImporter [])).calls
      = [{ commits := [1], localCommits := 9223372036854775807, err := none },
         { commits := [2], localCommits := 9223372036854775807, err := none }] ∧
    ((((runImporter hugeCountEnv.CreateLocalCommit [[1], [2]] (freshImporter [])).calls.filter
        fun c => c.err.isNone).map fun c => c.localCommits).sum = 18446744073709551614) ∧
    (runImporter hugeCountEnv.CreateLocalCommit [[1], [2]] (freshImporter [])).totalCommits
      = -2 ∧
    (runImporter hugeCountEnv.CreateLocalCommit [[1], [2]] (freshImporter [])).totalCommits
      ≠ (((runImporter hugeCountEnv.CreateLocalCommit [[1], [2]] (freshImporter [])).calls.filter
          fun c => c.err.isNone).map fun c => c.localCommits).sum ∧
    (main hugeCountEnv).totalCommitsCreated = some (-2) := by
  refine ⟨by decide, by decide, by decide, by decide, by decide⟩

/-- C7 (amended): the importer loop of `main`, for every sequence of received batches and
every outcome of `CreateLocalCommit`: it calls `CreateLocalCommit` exactly once per received
batch, in arrival order, each call on the repository as the earlier calls left it, whether or
not an earlier call failed; its total is the sum of the counts returned by the calls that
returned no error, taken as a Go `int` (modulo 2^64, between -2^63 and 2^63 - 1), a failed
call adding nothing whatever count comes with its error; the total is that sum itself
whenever the sum lies in the range of a Go `int`; and that total is what `main` reads once the
queue is closed. -/
theorem runImporter_total {β ρ : Type} (env : MainEnv β ρ) (repo : ρ) :
    (runImporter env.CreateLocalCommit env.received (freshImporter repo)).calls
      = createOutcomes env.CreateLocalCommit env.received repo ∧
    (runImporter env.CreateLocalCommit env.received (freshImporter repo)).calls.map
      (fun c => c.commits) = env.received ∧
    (runImporter env.CreateLocalCommit env.received (freshImporter repo)).totalCommits
      = wrapInt64 (((runImporter env.CreateLocalCommit env.received
          (freshImporter repo)).calls.filter
          fun c => c.err.isNone).map fun c => c.localCommits).sum ∧
    (-9223372036854775808 ≤ (((runImporter env.CreateLocalCommit env.received
          (freshImporter repo)).calls.filter
          fun c => c.err.isNone).map fun c => c.localCommits).sum →
      (((runImporter env.CreateLocalCommit env.received
          (freshImporter repo)).calls.filter
          fun c => c.err.isNone).map fun c => c.localCommits).sum < 9223372036854775808 →
      (runImporter env.CreateLocalCommit env.received (freshImporter repo)).totalCommits
        = (((runImporter env.CreateLocalCommit env.received
            (freshImporter repo)).calls.filter
            fun c => c.err.isNone).map fun c => c.localCommits).sum) ∧
    (∀ T, (main env).totalCommitsCreated = some T →
      T = wrapInt64 (((createOutcomes env.CreateLocalCommit env.received
              (env.PullLatestChanges env.OpenOrInitClone).1).filter
            fun c => c.err.isNone).map fun c => c.localCommits).sum ∧
      (main env).calls.filterMap createdBatch = env.received) := by
  have h := runImporter_eq env.CreateLocalCommit env.received (freshImporter repo)
  have hcalls : (runImporter env.CreateLocalCommit env.received (freshImporter repo)).calls
      = createOutcomes env.CreateLocalCommit env.received repo := by
    rw [h.1]
    simp [freshImporter]
  have htotal : (runImporter env.CreateLocalCommit env.received
      (freshImporter repo)).totalCommits
      = wrapInt64 (((runImporter env.CreateLocalCommit env.received
          (freshImporter repo)).calls.filter
          fun c => c.err.isNone).map fun c => c.localCommits).sum := by
    rw [hcalls]
    exact runImporter_fresh env.CreateLocalCommit env.received repo
  refine ⟨hcalls, ?_, htotal, ?_, ?_⟩
  · rw [hcalls, createOutcomes_commits]
  · intro h1 h2
    rw [htotal]
    exact wrapInt64_of_range _ h1 h2
  · intro T hT
    rcases main_shape env with ⟨hnone, _⟩ | ⟨pre, T0, _, hsome, hpre, hrecv, hT0, hcase⟩
    · rw [hnone] at hT; cases hT
    · rw [hsome] at hT
      cases hT
      constructor
      · rw [hT0]
        exact runImporter_fresh env.CreateLocalCommit env.received _
      · rcases hcase with ⟨_, hc⟩ | ⟨_, hc⟩
        · rw [hc, List.filterMap_append, hrecv]
          simp [createdBatch]
        · rw [hc, hrecv]

/-- Witness of C7 (amended): of the batches `[1, 2]`, `[0, 3]`, `[4]` the second fails with
count 5; the three calls are made in order and the total is 2 + 1. -/
theorem runImporter_total_witness :
    (runImporter (exampleEnv [[1, 2], [0, 3], [4]]).CreateLocalCommit [[1, 2], [0, 3], [4]]
        (freshImporter [])).calls
      = [{ commits := [1, 2], localCommits := 2, err := none },
         { commits := [0, 3], localCommits := 5, err := some "object not found" },
         { commits := [4], localCommits := 1, err := none }] ∧
    (runImporter (exampleEnv [[1, 2], [0, 3], [4]]).CreateLocalCommit [[1, 2], [0, 3], [4]]
        (freshImporter [])).totalCommits = 3 ∧
    (main (exampleEnv [[1, 2], [0, 3], [4]])).totalCommitsCreated = some 3 ∧
    (main (exampleEnv [[1, 2], [0, 3], [4]])).calls.filterMap createdBatch
      = [[1, 2], [0, 3], [4]] :=
  ⟨(runImporter_total (exampleEnv [[1, 2], [0, 3], [4]]) []).1.trans (by decide),
   ((runImporter_total (exampleEnv [[1, 2], [0, 3], [4]]) []).2.2.2.1
      (by decide) (by decide)).trans (by decide),
   by decide,
   ((runImporter_total (exampleEnv [[1, 2], [0, 3], [4]]) []).2.2.2.2 3 (by decide)).2⟩

end GitlabActivityImporter
